import Mathlib

/-!
# Verification of the `expiry-cache` TypeScript library

This file gives a shallow embedding in Lean 4 of the two cache variants of the
repository:

* `ExpiryCache<T>` (variant A, always populated) from `src/ExpiryCache.ts`,
  embedded as `CellA` together with its methods;
* `ExpiryCacheNullable<T>` (variant B, nullable) from `src/ExpiryCacheNullable.ts`,
  embedded as `CellN` together with its methods.

Timestamps and durations are integers (JavaScript `Date.now()` values are
integral numbers of milliseconds); `Date.now()` is modelled by an explicit
`now : Int` argument on every operation that reads the clock.  The caller
supplied refresh callback is modelled by its outcome, an `Outcome ε T`
(`ok v` for a value, `fail e` for a thrown error / rejected promise).

Two layers are provided.

1. A *sequential* layer: each `async` method, executed by a single caller with
   no interleaving, is a function from the pre-state to its result and
   post-state.  The outcome of the one callback invocation the method awaits
   is passed as an argument.  In a sequential run the in-flight field
   `_refreshCb` of the nullable variant is `null` at the start and at the end
   of every method (`refresh` sets it and its `finally` clears it before
   returning), which the sequential definitions reflect.

2. A *small-step concurrent* layer for the cooperative (event-loop)
   interleaving of several callers, used for the single-flight claims.  Each
   caller of `refresh` / `getDataOrRefresh` / `refreshExpiresAt` /
   `refreshExpiresIn` is a task that advances through the suspension points of
   the source method; the scheduler chooses which task advances and what
   `Date.now()` returns at each step.  Following JavaScript promise semantics,
   reactions to a settled promise run in attachment order, so the settlement
   of the callback promise together with the *initiator's* continuation
   (`setData` and the `finally` that clears `_refreshCb`, which run
   synchronously inside that first reaction) form one atomic step; each
   waiter's continuation is a later separate step.
-/

/-- Outcome of one invocation of the caller-supplied refresh callback:
either a produced value or a thrown error / rejected promise. -/
inductive Outcome (ε T : Type) where
  | ok (v : T)
  | fail (e : ε)
  deriving Repr, DecidableEq

/-- Discard the value of an outcome, keeping only success / failure: the
outcome of `refresh`, whose promise resolves with `undefined`. -/
def Outcome.toUnit {ε T : Type} : Outcome ε T → Outcome ε Unit
  | .ok _ => .ok ()
  | .fail e => .fail e

/-! ## Variant B: `ExpiryCacheNullable` (sequential layer)

Field-for-field embedding of the class state: `data : T | null`,
`_expiresAt : number` (`0` = never expires, `-1` = already expired / no data),
the immutable `expirationTime`, and `_refreshCb : Promise<T> | null` the
in-flight handle, modelled as the identifier of the outstanding callback
invocation (`none` = `null`). -/

/-- State of an `ExpiryCacheNullable` instance. -/
structure CellN (T : Type) where
  data : Option T
  expiresAt : Int
  expirationTime : Int
  refreshCb : Option Nat
  deriving Repr, DecidableEq

variable {T A ε : Type}

/-- `get hasData` — `this.data !== null`. -/
def CellN.hasData (c : CellN T) : Bool :=
  c.data.isSome

/-- `get refreshing` — `this._refreshCb !== null`. -/
def CellN.refreshing (c : CellN T) : Bool :=
  c.refreshCb.isSome

/-- `get doesExpire` — `this._expiresAt !== 0`. -/
def CellN.doesExpire (c : CellN T) : Bool :=
  c.expiresAt != 0

/-- `get isExpired` — `this.doesExpire && Date.now() >= this._expiresAt`. -/
def CellN.isExpired (now : Int) (c : CellN T) : Bool :=
  c.doesExpire && decide (c.expiresAt ≤ now)

/-- `get timeToLive` — `Math.max(0, this._expiresAt - Date.now())` when the
cell does expire, `null` otherwise. -/
def CellN.timeToLive (now : Int) (c : CellN T) : Option Int :=
  if c.doesExpire then some (max 0 (c.expiresAt - now)) else none

/-- The constructor:
`this._expiresAt = expirationTime === 0 ? 0 : data === null ? -1 : Date.now() + expirationTime`.
The source defaults `expirationTime` to `60_000` when the argument is
omitted; the embedding always passes it explicitly. -/
def mkCellN (data : Option T) (expirationTime : Int) (now : Int) : CellN T :=
  { data := data
    expiresAt :=
      if expirationTime = 0 then 0
      else match data with
        | none => -1
        | some _ => now + expirationTime
    expirationTime := expirationTime
    refreshCb := none }

/-- `expire()` — `this._expiresAt = -1`. -/
def CellN.expire (c : CellN T) : CellN T :=
  { c with expiresAt := -1 }

/-- `invalidate()` — `this.data = null; this.expire()`. -/
def CellN.invalidate (c : CellN T) : CellN T :=
  CellN.expire { c with data := none }

/-- `neverExpire()` — `this._expiresAt = 0`. -/
def CellN.neverExpire (c : CellN T) : CellN T :=
  { c with expiresAt := 0 }

/-- `expIn(ms)` — `ms === 0 ? 0 : Date.now() + ms`. -/
def expIn (ms now : Int) : Int :=
  if ms = 0 then 0 else now + ms

/-- `setExpiresIn(ms)` — `this._expiresAt = this.expIn(ms)`. -/
def CellN.setExpiresIn (ms now : Int) (c : CellN T) : CellN T :=
  { c with expiresAt := expIn ms now }

/-- `setExpiresAt(timestamp)` — `this._expiresAt = timestamp`. -/
def CellN.setExpiresAt (timestamp : Int) (c : CellN T) : CellN T :=
  { c with expiresAt := timestamp }

/-- `setDataExpiresAt(data, expiresAt)`. -/
def CellN.setDataExpiresAt (d : T) (t : Int) (c : CellN T) : CellN T :=
  { c with data := some d, expiresAt := t }

/-- `setDataExpiresIn(data, expirationTime)` —
`this.setDataExpiresAt(data, this.expIn(expirationTime))`. -/
def CellN.setDataExpiresIn (d : T) (dur now : Int) (c : CellN T) : CellN T :=
  c.setDataExpiresAt d (expIn dur now)

/-- `setData(data)` — `this.setDataExpiresIn(data, this.expirationTime)`. -/
def CellN.setData (d : T) (now : Int) (c : CellN T) : CellN T :=
  c.setDataExpiresIn d c.expirationTime now

/-- `getRawData()` — `return this.data`. -/
def CellN.getRawData (c : CellN T) : Option T :=
  c.data

/-- `getData()` — `if (this.isExpired) return null; return this.data`. -/
def CellN.getData (now : Int) (c : CellN T) : Option T :=
  if c.isExpired now then none else c.data

/-- One full sequential execution of `refresh(...args)` by a single caller on
a cell with no refresh in flight: the `else` branch runs, the callback is
invoked (its awaited outcome is `o`, settling when `Date.now() = now`), on
success `setData` stores the result, and the `finally` clears `_refreshCb`
again (net effect on that field: none), after which the method returns or
rethrows the callback's error. -/
def CellN.refreshRun (o : Outcome ε T) (now : Int) (c : CellN T) :
    Outcome ε Unit × CellN T :=
  match o with
  | .ok v => (.ok (), c.setData v now)
  | .fail e => (.fail e, c)

/-- One full sequential execution of `getDataOrRefresh(...args)`:
`if (this.isExpired) await this.refresh(...args); return this.data`.
A rejection of `refresh` propagates. -/
def CellN.getDataOrRefreshRun (o : Outcome ε T) (now : Int) (c : CellN T) :
    Outcome ε (Option T) × CellN T :=
  if c.isExpired now then
    match c.refreshRun o now with
    | (.ok _, c') => (.ok c'.data, c')
    | (.fail e, c') => (.fail e, c')
  else
    (.ok c.data, c)

/-- One full sequential execution of `tryGetDataOrRefresh(...args)` —
`this.getDataOrRefresh(...args).catch(() => null)`. -/
def CellN.tryGetDataOrRefreshRun (o : Outcome ε T) (now : Int) (c : CellN T) :
    Option T × CellN T :=
  match c.getDataOrRefreshRun o now with
  | (.ok v, c') => (v, c')
  | (.fail _, c') => (none, c')

/-- One full sequential execution of `refreshExpiresAt(expiresAt, ...args)` —
`this.setDataExpiresAt(await this.callback(...args), expiresAt)`.  The
callback is invoked unconditionally; on rejection the state is untouched. -/
def CellN.refreshExpiresAtRun (o : Outcome ε T) (t : Int) (c : CellN T) :
    Outcome ε Unit × CellN T :=
  match o with
  | .ok v => (.ok (), c.setDataExpiresAt v t)
  | .fail e => (.fail e, c)

/-- One full sequential execution of `refreshExpiresIn(expirationTime, ...args)` —
`this.setDataExpiresIn(await this.callback(...args), expirationTime)`, the
expiry resolving at the settlement instant `now`. -/
def CellN.refreshExpiresInRun (o : Outcome ε T) (dur now : Int) (c : CellN T) :
    Outcome ε Unit × CellN T :=
  match o with
  | .ok v => (.ok (), c.setDataExpiresIn v dur now)
  | .fail e => (.fail e, c)

/-! ## Variant A: `ExpiryCache` (sequential layer)

Embedding of `src/ExpiryCache.ts`: always-populated `data : T`, no sentinel
semantics (`isExpired` is plainly `Date.now() >= this._expiresAt`) and no
in-flight handle — its `refresh` invokes the callback on every call. -/

/-- State of an `ExpiryCache` instance. -/
structure CellA (T : Type) where
  data : T
  expiresAt : Int
  expirationTime : Int
  deriving Repr, DecidableEq

/-- The constructor — `this._expiresAt = Date.now() + expirationTime`
(default `expirationTime` is `60_000`, always passed explicitly here). -/
def mkCellA (data : T) (expirationTime : Int) (now : Int) : CellA T :=
  { data := data
    expiresAt := now + expirationTime
    expirationTime := expirationTime }

/-- `get isExpired` — `Date.now() >= this._expiresAt`. -/
def CellA.isExpired (now : Int) (c : CellA T) : Bool :=
  decide (c.expiresAt ≤ now)

/-- `expired()` — `this._expiresAt = 0`. -/
def CellA.expired (c : CellA T) : CellA T :=
  { c with expiresAt := 0 }

/-- `setData(data)` — also `this._expiresAt = Date.now() + this.expirationTime`. -/
def CellA.setData (d : T) (now : Int) (c : CellA T) : CellA T :=
  { c with data := d, expiresAt := now + c.expirationTime }

/-- `setDataExpiresAt(data, expiresAt)`. -/
def CellA.setDataExpiresAt (d : T) (t : Int) (c : CellA T) : CellA T :=
  { c with data := d, expiresAt := t }

/-- `setDataExpiresIn(data, expirationTime)` —
`this._expiresAt = Date.now() + expirationTime` (no `0` special case in
variant A). -/
def CellA.setDataExpiresIn (d : T) (dur now : Int) (c : CellA T) : CellA T :=
  { c with data := d, expiresAt := now + dur }

/-- `getData()` — `if (this.isExpired) return null; return this.data`. -/
def CellA.getData (now : Int) (c : CellA T) : Option T :=
  if c.isExpired now then none else some c.data

/-- One full sequential execution of variant A's `refresh(...args)` —
`this.setData(await this.callback(...args))`. -/
def CellA.refreshRun (o : Outcome ε T) (now : Int) (c : CellA T) :
    Outcome ε Unit × CellA T :=
  match o with
  | .ok v => (.ok (), c.setData v now)
  | .fail e => (.fail e, c)

/-- One full sequential execution of variant A's `getDataOrRefresh(...args)`. -/
def CellA.getDataOrRefreshRun (o : Outcome ε T) (now : Int) (c : CellA T) :
    Outcome ε T × CellA T :=
  if c.isExpired now then
    match c.refreshRun o now with
    | (.ok _, c') => (.ok c'.data, c')
    | (.fail e, c') => (.fail e, c')
  else
    (.ok c.data, c)

/-- One full sequential execution of variant A's `refreshExpiresAt`. -/
def CellA.refreshExpiresAtRun (o : Outcome ε T) (t : Int) (c : CellA T) :
    Outcome ε Unit × CellA T :=
  match o with
  | .ok v => (.ok (), c.setDataExpiresAt v t)
  | .fail e => (.fail e, c)

/-- One full sequential execution of variant A's `refreshExpiresIn`. -/
def CellA.refreshExpiresInRun (o : Outcome ε T) (dur now : Int) (c : CellA T) :
    Outcome ε Unit × CellA T :=
  match o with
  | .ok v => (.ok (), c.setDataExpiresIn v dur now)
  | .fail e => (.fail e, c)

/-! ## Concurrent layer for the nullable variant

A world holds the cell, a fixed set of caller tasks and the log of callback
invocations (`comps`).  Each entry of `comps` is one invocation of
`this.callback(...)`: the arguments it was invoked with, the outcome its
promise eventually settles with (chosen by the environment function `f` from
the invocation index and the arguments), whether the invocation was stored in
`_refreshCb` (`viaHandle`, true for invocations made by `refresh`, false for
those made by `refreshExpiresAt` / `refreshExpiresIn`), and whether its
promise has settled yet.

Task states trace the suspension points of the source methods:

* `callR a` — a pending call `refresh(a)`; its synchronous prologue
  (`if (this.refreshing)` and, in the else branch, invoking the callback and
  storing the promise) is one atomic step (`startR` or `joinR`).
* `callG a` — a pending call `getDataOrRefresh(a)`; its prologue additionally
  checks `isExpired` first (`startG` / `joinG` / `skipG`).
* `callX tgt a` — a pending call `refreshExpiresAt(t, a)`
  (`tgt = .atTime t`) or `refreshExpiresIn(d, a)` (`tgt = .inDur d`); its
  prologue invokes the callback unconditionally (`startX`).
* `initR cid` / `initG cid` — the initiator suspended on `await this._refreshCb`
  for invocation `cid`.  When that promise settles, the initiator's reaction
  runs first (it was attached first): on success `setData`, and in both cases
  the `finally` clearing `_refreshCb` — one atomic step (`settleR` / `settleG`).
* `waitR cid` / `waitG cid` — a joiner suspended on `await this._refreshCb`
  for invocation `cid`; its reaction (`wakeR` / `wakeG`) can only run after
  the promise has settled, hence after the initiator's reaction.
* `initX tgt cid` — suspended on `await this.callback(...)` inside
  `refreshExpiresAt`/`refreshExpiresIn`; on settlement `setDataExpiresAt`
  runs (`settleX`), never touching `_refreshCb`.
* `retG` — a `getDataOrRefresh` caller whose inner `await this.refresh(...)`
  has resolved; the trailing `return this.data` reads the cell's data in a
  later microtask (`readG`).
* `doneR r` / `doneG r` / `doneX r` — the call's promise has settled with
  result / error `r`.
-/

/-- Explicit expiry target of `refreshExpiresAt` (`atTime`) or
`refreshExpiresIn` (`inDur`). -/
inductive XTgt where
  | atTime (t : Int)
  | inDur (d : Int)
  deriving Repr, DecidableEq

/-- Resolve an explicit expiry target at settlement time `now`:
`refreshExpiresAt` stores the instant verbatim, `refreshExpiresIn` goes
through `expIn` (with its `0 ↦ never-expires` case). -/
def XTgt.resolve (tgt : XTgt) (now : Int) : Int :=
  match tgt with
  | .atTime t => t
  | .inDur d => expIn d now

/-- One logged invocation of the refresh callback. -/
structure Comp (A ε T : Type) where
  args : A
  outcome : Outcome ε T
  viaHandle : Bool
  settled : Bool
  deriving Repr, DecidableEq

/-- Task state of one concurrent caller of the nullable variant. -/
inductive NTask (A ε T : Type) where
  | callR (a : A)
  | callG (a : A)
  | callX (tgt : XTgt) (a : A)
  | initR (cid : Nat)
  | initG (cid : Nat)
  | initX (tgt : XTgt) (cid : Nat)
  | waitR (cid : Nat)
  | waitG (cid : Nat)
  | retG
  | doneR (r : Outcome ε Unit)
  | doneG (r : Outcome ε (Option T))
  | doneX (r : Outcome ε Unit)
  deriving Repr, DecidableEq

/-- A world of the concurrent nullable model. -/
structure NWorld (T A ε : Type) where
  cell : CellN T
  tasks : List (NTask A ε T)
  comps : List (Comp A ε T)
  deriving Repr, DecidableEq

variable {T A ε : Type}

/-- The initiator's reaction to the settlement of the callback promise:
`this.setData(await this._refreshCb)` on success, nothing on failure, then in
both cases the `finally` body `this._refreshCb = null`. -/
def settleCell (o : Outcome ε T) (now : Int) (c : CellN T) : CellN T :=
  match o with
  | .ok v => { c.setData v now with refreshCb := none }
  | .fail _ => { c with refreshCb := none }

/-- Successor world of `startR`: `refresh` finds `_refreshCb === null`,
invokes the callback with its own arguments and stores the promise. -/
def NWorld.startRW (f : Nat → A → Outcome ε T) (w : NWorld T A ε) (i : Nat) (a : A) :
    NWorld T A ε :=
  { cell := { w.cell with refreshCb := some w.comps.length }
    tasks := w.tasks.set i (.initR w.comps.length)
    comps := w.comps ++ [⟨a, f w.comps.length a, true, false⟩] }

/-- Successor world of `joinR`: `refresh` finds `_refreshCb` non-null and
merely awaits it; the joiner's own arguments are dropped, no invocation is
made, the cell is untouched. -/
def NWorld.joinRW (w : NWorld T A ε) (i cid : Nat) : NWorld T A ε :=
  { w with tasks := w.tasks.set i (.waitR cid) }

/-- Successor world of `startG` (expired, no refresh in flight). -/
def NWorld.startGW (f : Nat → A → Outcome ε T) (w : NWorld T A ε) (i : Nat) (a : A) :
    NWorld T A ε :=
  { cell := { w.cell with refreshCb := some w.comps.length }
    tasks := w.tasks.set i (.initG w.comps.length)
    comps := w.comps ++ [⟨a, f w.comps.length a, true, false⟩] }

/-- Successor world of `joinG` (expired, refresh already in flight). -/
def NWorld.joinGW (w : NWorld T A ε) (i cid : Nat) : NWorld T A ε :=
  { w with tasks := w.tasks.set i (.waitG cid) }

/-- Successor world of `skipG`: `getDataOrRefresh` on a non-expired cell
returns `this.data` without touching anything. -/
def NWorld.skipGW (w : NWorld T A ε) (i : Nat) : NWorld T A ε :=
  { w with tasks := w.tasks.set i (.doneG (.ok w.cell.data)) }

/-- Successor world of `settleR`: invocation `cid` settles and the initiating
`refresh` caller's reaction runs — cell updated per `settleCell`, the entry
marked settled, the caller's promise resolving with the voided outcome. -/
def NWorld.settleRW (w : NWorld T A ε) (i cid : Nat) (e : Comp A ε T) (now : Int) :
    NWorld T A ε :=
  { cell := settleCell e.outcome now w.cell
    tasks := w.tasks.set i (.doneR e.outcome.toUnit)
    comps := w.comps.set cid { e with settled := true } }

/-- The task state a `getDataOrRefresh` caller reaches when its inner
`await this.refresh(...)` settles with outcome `o`: on success it still has
to read `this.data` in a later microtask, on failure its promise rejects at
once with the same error. -/
def gReaction (o : Outcome ε T) : NTask A ε T :=
  match o with
  | .ok _ => .retG
  | .fail er => .doneG (.fail er)

/-- Successor world of `settleG`: as `settleRW`, but the caller entered
through `getDataOrRefresh`: on success it still has to read `this.data`
(state `retG`), on failure the error propagates at once. -/
def NWorld.settleGW (w : NWorld T A ε) (i cid : Nat) (e : Comp A ε T) (now : Int) :
    NWorld T A ε :=
  { cell := settleCell e.outcome now w.cell
    tasks := w.tasks.set i (gReaction e.outcome)
    comps := w.comps.set cid { e with settled := true } }

/-- Successor world of `wakeR`: a joiner's reaction to the already settled
invocation `cid` — its `refresh` call returns, or rethrows the same error. -/
def NWorld.wakeRW (w : NWorld T A ε) (i : Nat) (e : Comp A ε T) : NWorld T A ε :=
  { w with tasks := w.tasks.set i (.doneR e.outcome.toUnit) }

/-- Successor world of `wakeG`: as `wakeRW` for a `getDataOrRefresh` joiner. -/
def NWorld.wakeGW (w : NWorld T A ε) (i : Nat) (e : Comp A ε T) : NWorld T A ε :=
  { w with tasks := w.tasks.set i (gReaction e.outcome) }

/-- Successor world of `readG`: the trailing `return this.data` of
`getDataOrRefresh`, reading the cell's data at that moment. -/
def NWorld.readGW (w : NWorld T A ε) (i : Nat) : NWorld T A ε :=
  { w with tasks := w.tasks.set i (.doneG (.ok w.cell.data)) }

/-- Successor world of `startX`: `refreshExpiresAt` / `refreshExpiresIn`
invokes the callback unconditionally — no test of `_refreshCb`, no store to
it, the cell untouched. -/
def NWorld.startXW (f : Nat → A → Outcome ε T) (w : NWorld T A ε) (i : Nat)
    (tgt : XTgt) (a : A) : NWorld T A ε :=
  { w with
    tasks := w.tasks.set i (.initX tgt w.comps.length)
    comps := w.comps ++ [⟨a, f w.comps.length a, false, false⟩] }

/-- Successor world of `settleX`: the explicit-expiry caller's reaction —
on success `setDataExpiresAt(result, target)` stores value and expiry in the
same synchronous reaction; `_refreshCb` is never read or written. -/
def NWorld.settleXW (w : NWorld T A ε) (i cid : Nat) (tgt : XTgt) (e : Comp A ε T)
    (now : Int) : NWorld T A ε :=
  { cell :=
      match e.outcome with
      | .ok v => w.cell.setDataExpiresAt v (tgt.resolve now)
      | .fail _ => w.cell
    tasks := w.tasks.set i (.doneX e.outcome.toUnit)
    comps := w.comps.set cid { e with settled := true } }

/-- One scheduler step of the concurrent nullable model, at an instant where
`Date.now()` returns `now`.  `f` maps an invocation index and the arguments
to the outcome that invocation eventually settles with. -/
inductive NStep (f : Nat → A → Outcome ε T) (now : Int) :
    NWorld T A ε → NWorld T A ε → Prop where
  | startR (w : NWorld T A ε) (i : Nat) (a : A) :
      w.tasks[i]? = some (.callR a) →
      w.cell.refreshCb = none →
      NStep f now w (w.startRW f i a)
  | joinR (w : NWorld T A ε) (i : Nat) (a : A) (cid : Nat) :
      w.tasks[i]? = some (.callR a) →
      w.cell.refreshCb = some cid →
      NStep f now w (w.joinRW i cid)
  | startG (w : NWorld T A ε) (i : Nat) (a : A) :
      w.tasks[i]? = some (.callG a) →
      w.cell.isExpired now = true →
      w.cell.refreshCb = none →
      NStep f now w (w.startGW f i a)
  | joinG (w : NWorld T A ε) (i : Nat) (a : A) (cid : Nat) :
      w.tasks[i]? = some (.callG a) →
      w.cell.isExpired now = true →
      w.cell.refreshCb = some cid →
      NStep f now w (w.joinGW i cid)
  | skipG (w : NWorld T A ε) (i : Nat) (a : A) :
      w.tasks[i]? = some (.callG a) →
      w.cell.isExpired now = false →
      NStep f now w (w.skipGW i)
  | settleR (w : NWorld T A ε) (i cid : Nat) (e : Comp A ε T) :
      w.tasks[i]? = some (.initR cid) →
      w.comps[cid]? = some e →
      e.settled = false →
      NStep f now w (w.settleRW i cid e now)
  | settleG (w : NWorld T A ε) (i cid : Nat) (e : Comp A ε T) :
      w.tasks[i]? = some (.initG cid) →
      w.comps[cid]? = some e →
      e.settled = false →
      NStep f now w (w.settleGW i cid e now)
  | wakeR (w : NWorld T A ε) (i cid : Nat) (e : Comp A ε T) :
      w.tasks[i]? = some (.waitR cid) →
      w.comps[cid]? = some e →
      e.settled = true →
      NStep f now w (w.wakeRW i e)
  | wakeG (w : NWorld T A ε) (i cid : Nat) (e : Comp A ε T) :
      w.tasks[i]? = some (.waitG cid) →
      w.comps[cid]? = some e →
      e.settled = true →
      NStep f now w (w.wakeGW i e)
  | readG (w : NWorld T A ε) (i : Nat) :
      w.tasks[i]? = some .retG →
      NStep f now w (w.readGW i)
  | startX (w : NWorld T A ε) (i : Nat) (tgt : XTgt) (a : A) :
      w.tasks[i]? = some (.callX tgt a) →
      NStep f now w (w.startXW f i tgt a)
  | settleX (w : NWorld T A ε) (i cid : Nat) (tgt : XTgt) (e : Comp A ε T) :
      w.tasks[i]? = some (.initX tgt cid) →
      w.comps[cid]? = some e →
      e.settled = false →
      NStep f now w (w.settleXW i cid tgt e now)

/-- Any finite interleaving: reflexive-transitive closure of `NStep`, the
scheduler choosing the clock value of each step. -/
def NSteps (f : Nat → A → Outcome ε T) (w w' : NWorld T A ε) : Prop :=
  Relation.ReflTransGen (fun x y => ∃ now, NStep f now x y) w w'

/-- Initial worlds for the single-flight claims: a cell at rest (no refresh
in flight), an empty invocation log, and tasks that are all pending calls to
`refresh` or `getDataOrRefresh`. -/
def NWorld.Fresh (w : NWorld T A ε) : Prop :=
  w.comps = [] ∧ w.cell.refreshCb = none ∧
    ∀ t ∈ w.tasks, (∃ a, t = .callR a) ∨ (∃ a, t = .callG a)

/-- Task states a caller can be in after entering the single-flight protocol
on invocation `0` and before that invocation's outcome is applied. -/
def NTask.OnZero (t : NTask A ε T) : Prop :=
  t = .initR 0 ∨ t = .initG 0 ∨ t = .waitR 0 ∨ t = .waitG 0

/-- Settled task states. -/
def NTask.IsDone (t : NTask A ε T) : Prop :=
  (∃ r, t = .doneR r) ∨ (∃ r, t = .doneG r) ∨ (∃ r, t = .doneX r)

/-- Task states that prove an entry `cid` of the invocation log was created:
the task that is (or was) suspended on it, or any task that already finished. -/
def NTask.Past (t : NTask A ε T) (cid : Nat) : Prop :=
  t = .initR cid ∨ t = .initG cid ∨ (∃ tg, t = .initX tg cid) ∨ t = .retG ∨ t.IsDone

/-- Task states of the `refresh` / `getDataOrRefresh` families only (no
explicit-expiry callers). -/
def NTask.IsRG (t : NTask A ε T) : Prop :=
  match t with
  | .callX _ _ => False
  | .initX _ _ => False
  | .doneX _ => False
  | _ => True

/-- Global invariant of worlds reachable from a `Fresh` world.  `g1`/`g2`:
the unsettled handle-stored invocation is exactly the one `_refreshCb` holds;
`g3`: the initiator suspended on `await this._refreshCb` (if any) is unique
and matches `_refreshCb`; `g4`: every invocation after the first was made by
some caller that is past its entry step; `g5`: waiters wait on logged
invocations; `g6`: outcomes come from `f`; `g7`: no explicit-expiry callers;
`g8`: every logged invocation was stored in the handle. -/
structure GInv (f : Nat → A → Outcome ε T) (w : NWorld T A ε) : Prop where
  g1 : ∀ cid e, w.comps[cid]? = some e → e.settled = false → e.viaHandle = true →
        w.cell.refreshCb = some cid
  g2 : ∀ cid, w.cell.refreshCb = some cid →
        ∃ e, w.comps[cid]? = some e ∧ e.settled = false ∧ e.viaHandle = true
  g3 : ∀ (i cid : Nat),
        (w.tasks[i]? = some (NTask.initR cid) ∨ w.tasks[i]? = some (NTask.initG cid)) →
        w.cell.refreshCb = some cid ∧
        ∀ (j cj : Nat),
          (w.tasks[j]? = some (NTask.initR cj) ∨ w.tasks[j]? = some (NTask.initG cj)) →
          j = i
  g4 : ∀ (cid : Nat), 1 ≤ cid → cid < w.comps.length →
        ∃ (i : Nat) (t : NTask A ε T), w.tasks[i]? = some t ∧ NTask.Past t cid
  g5 : ∀ (i cid : Nat),
        (w.tasks[i]? = some (NTask.waitR cid) ∨ w.tasks[i]? = some (NTask.waitG cid)) →
        cid < w.comps.length
  g6 : ∀ cid e, w.comps[cid]? = some e → e.outcome = f cid e.args
  g7 : ∀ (i : Nat) (t : NTask A ε T), w.tasks[i]? = some t → NTask.IsRG t
  g8 : ∀ (cid : Nat) (e : Comp A ε T), w.comps[cid]? = some e → e.viaHandle = true

/-- Invariant of the resolution phase of a single-flight burst whose one
invocation succeeds with `v`: the log stays a single successful invocation;
before it settles every caller sits at its suspension point on invocation
`0`; once it settles the cell's data is `v` and every caller is suspended,
reading, or done with the shared successful result. -/
def ROk (a0 : A) (v : T) (w : NWorld T A ε) : Prop :=
  w.comps.length = 1 ∧
    ((w.comps[0]? = some ⟨a0, .ok v, true, false⟩ ∧
        ∀ t ∈ w.tasks, t.OnZero) ∨
      (w.comps[0]? = some ⟨a0, .ok v, true, true⟩ ∧
        w.cell.data = some v ∧
        ∀ t ∈ w.tasks, t.OnZero ∨ t = .retG ∨
          t = .doneR (.ok ()) ∨ t = .doneG (.ok (some v))))

/-- Invariant of the resolution phase of a single-flight burst whose one
invocation fails with `er`: every caller ends with that same error. -/
def RFail (a0 : A) (er : ε) (w : NWorld T A ε) : Prop :=
  w.comps.length = 1 ∧
    ((w.comps[0]? = some ⟨a0, .fail er, true, false⟩ ∧
        ∀ t ∈ w.tasks, t.OnZero) ∨
      (w.comps[0]? = some ⟨a0, .fail er, true, true⟩ ∧
        ∀ t ∈ w.tasks, t.OnZero ∨
          t = .doneR (.fail er) ∨ t = .doneG (.fail er)))

/-! ## Concurrent layer for variant A

`ExpiryCache` has no `_refreshCb` field: every call of its
`refresh(...args)` invokes the callback.  A caller is `callR a` before its
synchronous prologue (which invokes the callback), `awaitCb cid` while
suspended on `await this.callback(...)`, and `doneR r` afterwards; on
settlement `this.setData(result)` runs, or the error propagates. -/

/-- Task state of one concurrent `refresh` caller of variant A. -/
inductive ATask (A ε : Type) where
  | callR (a : A)
  | awaitCb (cid : Nat)
  | doneR (r : Outcome ε Unit)
  deriving Repr, DecidableEq

/-- A world of the concurrent variant-A model. -/
structure AWorld (T A ε : Type) where
  cell : CellA T
  tasks : List (ATask A ε)
  comps : List (Comp A ε T)
  deriving Repr, DecidableEq

/-- Successor world of variant A's `start`: the callback is invoked
unconditionally — there is no in-flight test. -/
def AWorld.startW (f : Nat → A → Outcome ε T) (w : AWorld T A ε) (i : Nat) (a : A) :
    AWorld T A ε :=
  { w with
    tasks := w.tasks.set i (.awaitCb w.comps.length)
    comps := w.comps ++ [⟨a, f w.comps.length a, false, false⟩] }

/-- Successor world of variant A's `settle`: `this.setData(result)` on
success, propagation on failure. -/
def AWorld.settleW (w : AWorld T A ε) (i cid : Nat) (e : Comp A ε T) (now : Int) :
    AWorld T A ε :=
  { cell :=
      match e.outcome with
      | .ok v => w.cell.setData v now
      | .fail _ => w.cell
    tasks := w.tasks.set i (.doneR e.outcome.toUnit)
    comps := w.comps.set cid { e with settled := true } }

/-- One scheduler step of the concurrent variant-A model. -/
inductive AStep (f : Nat → A → Outcome ε T) (now : Int) :
    AWorld T A ε → AWorld T A ε → Prop where
  | start (w : AWorld T A ε) (i : Nat) (a : A) :
      w.tasks[i]? = some (.callR a) →
      AStep f now w (w.startW f i a)
  | settle (w : AWorld T A ε) (i cid : Nat) (e : Comp A ε T) :
      w.tasks[i]? = some (.awaitCb cid) →
      w.comps[cid]? = some e →
      e.settled = false →
      AStep f now w (w.settleW i cid e now)

/-- Any finite interleaving of variant-A steps. -/
def ASteps (f : Nat → A → Outcome ε T) (w w' : AWorld T A ε) : Prop :=
  Relation.ReflTransGen (fun x y => ∃ now, AStep f now x y) w w'

/-- Case description of one `NStep`: the stepped task is at index `i`, and
the step is one of the twelve transitions with its enabling conditions and
its successor world. -/
def SteppedAt (f : Nat → A → Outcome ε T) (now : Int) (w w' : NWorld T A ε)
    (i : Nat) : Prop :=
  (∃ a, w.tasks[i]? = some (NTask.callR a) ∧ w.cell.refreshCb = none ∧
    w' = w.startRW f i a) ∨
  (∃ a cid, w.tasks[i]? = some (NTask.callR a) ∧ w.cell.refreshCb = some cid ∧
    w' = w.joinRW i cid) ∨
  (∃ a, w.tasks[i]? = some (NTask.callG a) ∧ w.cell.isExpired now = true ∧
    w.cell.refreshCb = none ∧ w' = w.startGW f i a) ∨
  (∃ a cid, w.tasks[i]? = some (NTask.callG a) ∧ w.cell.isExpired now = true ∧
    w.cell.refreshCb = some cid ∧ w' = w.joinGW i cid) ∨
  (∃ a, w.tasks[i]? = some (NTask.callG a) ∧ w.cell.isExpired now = false ∧
    w' = w.skipGW i) ∨
  (∃ cid e, w.tasks[i]? = some (NTask.initR cid) ∧ w.comps[cid]? = some e ∧
    e.settled = false ∧ w' = w.settleRW i cid e now) ∨
  (∃ cid e, w.tasks[i]? = some (NTask.initG cid) ∧ w.comps[cid]? = some e ∧
    e.settled = false ∧ w' = w.settleGW i cid e now) ∨
  (∃ cid e, w.tasks[i]? = some (NTask.waitR cid) ∧ w.comps[cid]? = some e ∧
    e.settled = true ∧ w' = w.wakeRW i e) ∨
  (∃ cid e, w.tasks[i]? = some (NTask.waitG cid) ∧ w.comps[cid]? = some e ∧
    e.settled = true ∧ w' = w.wakeGW i e) ∨
  (w.tasks[i]? = some NTask.retG ∧ w' = w.readGW i) ∨
  (∃ tgt a, w.tasks[i]? = some (NTask.callX tgt a) ∧ w' = w.startXW f i tgt a) ∨
  (∃ tgt cid e, w.tasks[i]? = some (NTask.initX tgt cid) ∧ w.comps[cid]? = some e ∧
    e.settled = false ∧ w' = w.settleXW i cid tgt e now)

/-! ## Concrete scenario data for the concurrent claims -/

/-- Environment for the C1 single-flight scenario: invocation `i` on
arguments `a` succeeds with `a + i` (distinct invocations would be
observable). -/
def c1f : Nat → Nat → Outcome Nat Nat :=
  fun i a => Outcome.ok (a + i)

/-- Initial world for the C1 scenario: an expired nullable cell with no data
(constructed with no initial value, duration `100`), one pending `refresh(5)`
and one pending `getDataOrRefresh(9)`. -/
def c1w0 : NWorld Nat Nat Nat :=
  { cell := mkCellN none 100 0
    tasks := [NTask.callR 5, NTask.callG 9]
    comps := [] }

/-- The C1 worlds: the `refresh(5)` caller starts invocation `0`. -/
def c1w1 : NWorld Nat Nat Nat :=
  c1w0.startRW c1f 0 5

/-- C1 worlds: the `getDataOrRefresh(9)` caller finds the cell expired and a
refresh in flight, and joins invocation `0`. -/
def c1w2 : NWorld Nat Nat Nat :=
  c1w1.joinGW 1 0

/-- C1 worlds: invocation `0` settles with `5`; the initiator stores it and
clears the handle. -/
def c1w3 : NWorld Nat Nat Nat :=
  c1w2.settleRW 0 0 ⟨5, Outcome.ok 5, true, false⟩ 50

/-- C1 worlds: the joiner's inner `refresh` resolves. -/
def c1w4 : NWorld Nat Nat Nat :=
  c1w3.wakeGW 1 ⟨5, Outcome.ok 5, true, true⟩

/-- C1 worlds: the joiner reads `this.data` and resolves with `some 5`. -/
def c1w5 : NWorld Nat Nat Nat :=
  c1w4.readGW 1

/-- Environment for the variant-A counterexample: invocation `i` succeeds
with `i`. -/
def c1af : Nat → Unit → Outcome Unit Nat :=
  fun i _ => Outcome.ok i

/-- Initial world of the variant-A counterexample: an expired always-populated
cell and two pending `refresh()` calls. -/
def c1aw0 : AWorld Nat Unit Unit :=
  { cell := mkCellA 0 0 0
    tasks := [ATask.callR (), ATask.callR ()]
    comps := [] }

/-- Variant-A counterexample worlds: the first caller invokes the callback. -/
def c1aw1 : AWorld Nat Unit Unit :=
  c1aw0.startW c1af 0 ()

/-- Variant-A counterexample worlds: the second caller also invokes the
callback — two refresh computations are now executing at once. -/
def c1aw2 : AWorld Nat Unit Unit :=
  c1aw1.startW c1af 1 ()

/-- Variant-A counterexample worlds: the first invocation settles. -/
def c1aw3 : AWorld Nat Unit Unit :=
  c1aw2.settleW 0 0 ⟨(), Outcome.ok 0, false, false⟩ 9

/-- Variant-A counterexample worlds: the second invocation settles. -/
def c1aw4 : AWorld Nat Unit Unit :=
  c1aw3.settleW 1 1 ⟨(), Outcome.ok 1, false, false⟩ 11

/-- Environment for the C3 scenario: every invocation fails with error `7`. -/
def c3f : Nat → Nat → Outcome Nat Nat :=
  fun _ _ => Outcome.fail 7

/-- Initial world for the C3 scenario: three pending `refresh` calls with
arguments `1`, `2`, `3` on a fresh cell. -/
def c3w0 : NWorld Nat Nat Nat :=
  { cell := mkCellN (some 0) 100 0
    tasks := [NTask.callR 1, NTask.callR 2, NTask.callR 3]
    comps := [] }

/-- The C3 worlds: caller `0` starts the refresh (invocation `0`,
arguments `1`). -/
def c3w1 : NWorld Nat Nat Nat :=
  c3w0.startRW c3f 0 1

/-- C3 worlds: caller `1` joins the in-flight refresh. -/
def c3w2 : NWorld Nat Nat Nat :=
  c3w1.joinRW 1 0

/-- C3 worlds: invocation `0` settles with failure `7`; the initiator's
reaction clears the handle and rethrows. -/
def c3w3 : NWorld Nat Nat Nat :=
  c3w2.settleRW 0 0 ⟨1, Outcome.fail 7, true, false⟩ 6

/-- C3 worlds: the waiter's reaction delivers the same failure. -/
def c3w4 : NWorld Nat Nat Nat :=
  c3w3.wakeRW 1 ⟨1, Outcome.fail 7, true, true⟩

/-- C3 worlds: after the failure has settled, caller `2` starts a fresh
invocation with its own arguments `3`. -/
def c3w5 : NWorld Nat Nat Nat :=
  c3w4.startRW c3f 2 3

/-- Environment for the C8 scenario: invocation `i` on `a` succeeds with
`a + i`. -/
def c8f : Nat → Nat → Outcome Nat Nat :=
  fun i a => Outcome.ok (a + i)

/-- Initial world for the C8 scenario: a plain `refresh` is in flight
(`_refreshCb` holds invocation `0`, unsettled) while a
`refreshExpiresAt(500, 4)` call is pending. -/
def c8w0 : NWorld Nat Nat Nat :=
  { cell := { data := some 0, expiresAt := 100, expirationTime := 100, refreshCb := some 0 }
    tasks := [NTask.initR 0, NTask.callX (XTgt.atTime 500) 4]
    comps := [⟨9, Outcome.ok 9, true, false⟩] }

/-- Environment for the C9 scenario: invocation `i` on `a` succeeds with
`a * 100 + i`, so outcomes identify the arguments used. -/
def c9f : Nat → Nat → Outcome Nat Nat :=
  fun i a => Outcome.ok (a * 100 + i)

/-- Initial world for the C9 scenario: two pending `refresh` calls with
distinct arguments `10` and `20` on a fresh cell. -/
def c9w0 : NWorld Nat Nat Nat :=
  { cell := mkCellN (some 0) 100 0
    tasks := [NTask.callR 10, NTask.callR 20]
    comps := [] }

/-! ## Sequential claims -/

/-- C2: on either variant, if the refresh callback throws or rejects then
every refresh-family operation (`refresh`, `getDataOrRefresh`,
`refreshExpiresAt`, `refreshExpiresIn`) leaves the whole cell state — in
particular `data` and `expiresAt` — exactly as it was and propagates the
failure to the caller; the sole exception is the nullable variant's
`tryGetDataOrRefresh`, which returns `null` instead of propagating while
still leaving the state unchanged. -/
theorem c2_failed_refresh_preserves_state
    (c : CellN T) (a : CellA T) (e : ε) (now t dur : Int) :
    c.refreshRun (Outcome.fail e) now = (Outcome.fail e, c) ∧
    (c.isExpired now = true →
      c.getDataOrRefreshRun (Outcome.fail e) now = (Outcome.fail e, c)) ∧
    (c.isExpired now = true →
      c.tryGetDataOrRefreshRun (Outcome.fail e) now = (none, c)) ∧
    c.refreshExpiresAtRun (Outcome.fail e) t = (Outcome.fail e, c) ∧
    c.refreshExpiresInRun (Outcome.fail e) dur now = (Outcome.fail e, c) ∧
    a.refreshRun (Outcome.fail e) now = (Outcome.fail e, a) ∧
    (a.isExpired now = true →
      a.getDataOrRefreshRun (Outcome.fail e) now = (Outcome.fail e, a)) ∧
    a.refreshExpiresAtRun (Outcome.fail e) t = (Outcome.fail e, a) ∧
    a.refreshExpiresInRun (Outcome.fail e) dur now = (Outcome.fail e, a) := by
  refine ⟨rfl, ?_, ?_, rfl, rfl, rfl, ?_, rfl, rfl⟩
  · intro h
    simp [CellN.getDataOrRefreshRun, CellN.refreshRun, h]
  · intro h
    simp [CellN.tryGetDataOrRefreshRun, CellN.getDataOrRefreshRun, CellN.refreshRun, h]
  · intro h
    simp [CellA.getDataOrRefreshRun, CellA.refreshRun, h]

/-- Witness for C2 at a concrete expired cell of each variant. -/
theorem c2_failed_refresh_preserves_state_witness :
    (mkCellN (some 1) 100 0 : CellN Nat).isExpired 200 = true ∧
    (mkCellN (some 1) 100 0 : CellN Nat).getDataOrRefreshRun (Outcome.fail (3 : Nat)) 200
      = (Outcome.fail 3, mkCellN (some 1) 100 0) ∧
    (mkCellN (some 1) 100 0 : CellN Nat).tryGetDataOrRefreshRun (Outcome.fail (3 : Nat)) 200
      = (none, mkCellN (some 1) 100 0) ∧
    (mkCellA 5 100 0 : CellA Nat).isExpired 200 = true ∧
    (mkCellA 5 100 0 : CellA Nat).getDataOrRefreshRun (Outcome.fail (3 : Nat)) 200
      = (Outcome.fail 3, mkCellA 5 100 0) :=
  ⟨by decide,
    (c2_failed_refresh_preserves_state (mkCellN (some 1) 100 0) (mkCellA 5 100 0)
      3 200 0 0).2.1 (by decide),
    (c2_failed_refresh_preserves_state (mkCellN (some 1) 100 0) (mkCellA 5 100 0)
      3 200 0 0).2.2.1 (by decide),
    by decide,
    (c2_failed_refresh_preserves_state (mkCellN (some 1) 100 0) (mkCellA 5 100 0)
      3 200 0 0).2.2.2.2.2.2.1 (by decide)⟩

/-- Counterexample to C4 as stated: a nullable cell constructed with no
initial value and requested duration `0` does *not* get the already-expired
sentinel — the `expirationTime === 0` test comes first in the constructor, so
the cell gets the never-expires sentinel `0` and is not expired at any
instant, and no read would trigger a refresh. -/
theorem c4_counterexample :
    (mkCellN (none : Option Nat) 0 5).expiresAt = 0 ∧
    (mkCellN (none : Option Nat) 0 5).expiresAt ≠ -1 ∧
    (mkCellN (none : Option Nat) 0 5).hasData = false ∧
    (mkCellN (none : Option Nat) 0 5).doesExpire = false ∧
    (mkCellN (none : Option Nat) 0 5).isExpired 1000000000 = false := by
  decide

/-- C4 (amended: for every *non-zero* requested duration): a nullable cell
constructed with no initial value gets the already-expired sentinel `-1`,
has no data, is expired at every non-negative instant, and the very first
`getDataOrRefresh` therefore performs a refresh (here shown for a successful
one: it stores the value). -/
theorem c4_no_initial_value (dur now now' : Int) (v : T)
    (hdur : dur ≠ 0) (hnow : 0 ≤ now') :
    (mkCellN (none : Option T) dur now).expiresAt = -1 ∧
    (mkCellN (none : Option T) dur now).hasData = false ∧
    (mkCellN (none : Option T) dur now).isExpired now' = true ∧
    (mkCellN (none : Option T) dur now).getDataOrRefreshRun (Outcome.ok v : Outcome ε T) now'
      = (Outcome.ok (some v), (mkCellN (none : Option T) dur now).setData v now') := by
  have h1 : (mkCellN (none : Option T) dur now).expiresAt = -1 := by
    simp [mkCellN, hdur]
  have h2 : (mkCellN (none : Option T) dur now).isExpired now' = true := by
    simp [CellN.isExpired, CellN.doesExpire, h1]
    omega
  refine ⟨h1, rfl, h2, ?_⟩
  simp [CellN.getDataOrRefreshRun, CellN.refreshRun, h2, CellN.setData,
    CellN.setDataExpiresIn, CellN.setDataExpiresAt]

/-- Witness for C4 (amended) at duration `50`, clock `3`. -/
theorem c4_no_initial_value_witness :
    (mkCellN (none : Option Nat) 50 0).expiresAt = -1 ∧
    (mkCellN (none : Option Nat) 50 0).hasData = false ∧
    (mkCellN (none : Option Nat) 50 0).isExpired 3 = true ∧
    (mkCellN (none : Option Nat) 50 0).getDataOrRefreshRun (Outcome.ok 7 : Outcome Nat Nat) 3
      = (Outcome.ok (some 7), (mkCellN (none : Option Nat) 50 0).setData 7 3) :=
  c4_no_initial_value 50 0 3 7 (by decide) (by decide)

/-- C5: a nullable cell constructed with duration `0` (and not manually
re-expired) never expires: `doesExpire` is false, `isExpired` is false and
`timeToLive` is `null` at every instant; and this configuration
(`expirationTime = 0`, `expiresAt = 0`) is preserved by every successful
plain `refresh`, whose `setData` re-applies the configured TTL `0` through
`expIn`, mapping it back to the never-expires sentinel. -/
theorem c5_duration_zero_never_expires (d : Option T) (c : CellN T) (v : T)
    (now now' : Int) (hTTL : c.expirationTime = 0) (hAt : c.expiresAt = 0) :
    (mkCellN d 0 now).doesExpire = false ∧
    (mkCellN d 0 now).timeToLive now' = none ∧
    (mkCellN d 0 now).isExpired now' = false ∧
    (mkCellN d 0 now).expirationTime = 0 ∧
    (mkCellN d 0 now).expiresAt = 0 ∧
    c.doesExpire = false ∧
    c.timeToLive now' = none ∧
    c.isExpired now' = false ∧
    (c.refreshRun (Outcome.ok v : Outcome ε T) now').2.expirationTime = 0 ∧
    (c.refreshRun (Outcome.ok v : Outcome ε T) now').2.expiresAt = 0 := by
  refine ⟨?_, ?_, ?_, rfl, ?_, ?_, ?_, ?_, ?_, ?_⟩ <;>
    simp [mkCellN, CellN.doesExpire, CellN.timeToLive, CellN.isExpired,
      CellN.refreshRun, CellN.setData, CellN.setDataExpiresIn, CellN.setDataExpiresAt,
      expIn, hTTL, hAt]

/-- Witness for C5 at a concrete duration-`0` cell. -/
theorem c5_duration_zero_never_expires_witness :
    (mkCellN (some 2) 0 1 : CellN Nat).doesExpire = false ∧
    (mkCellN (some 2) 0 1 : CellN Nat).timeToLive 999 = none ∧
    (mkCellN (some 2) 0 1 : CellN Nat).isExpired 999 = false ∧
    (mkCellN (some 2) 0 1 : CellN Nat).expirationTime = 0 ∧
    (mkCellN (some 2) 0 1 : CellN Nat).expiresAt = 0 ∧
    (mkCellN (some 2) 0 1 : CellN Nat).doesExpire = false ∧
    (mkCellN (some 2) 0 1 : CellN Nat).timeToLive 999 = none ∧
    (mkCellN (some 2) 0 1 : CellN Nat).isExpired 999 = false ∧
    ((mkCellN (some 2) 0 1 : CellN Nat).refreshRun (Outcome.ok 7 : Outcome Nat Nat) 999).2.expirationTime = 0 ∧
    ((mkCellN (some 2) 0 1 : CellN Nat).refreshRun (Outcome.ok 7 : Outcome Nat Nat) 999).2.expiresAt = 0 :=
  c5_duration_zero_never_expires (some 2) (mkCellN (some 2) 0 1) 7 1 999
    (by decide) (by decide)

/-- C6: on either variant `getData` is a pure read: it returns the stored
value when the cell is not expired (the same value `getRawData` reports) and
`null` when it is expired.  The embedding of `getData` is a function of the
cell and the clock alone — the source method contains no assignment and no
callback invocation — so it cannot mutate `data`, `expiresAt` or the
in-flight handle, and any number of calls at the same instant return the
same result. -/
theorem c6_getData_pure_read (c : CellN T) (a : CellA T) (now : Int) :
    (c.isExpired now = true → c.getData now = none) ∧
    (c.isExpired now = false → c.getData now = c.getRawData) ∧
    (a.isExpired now = true → a.getData now = none) ∧
    (a.isExpired now = false → a.getData now = some a.data) := by
  refine ⟨?_, ?_, ?_, ?_⟩ <;> intro h <;>
    simp [CellN.getData, CellA.getData, CellN.getRawData, h]

/-- Witness for C6: the same cells read before and after their expiry. -/
theorem c6_getData_pure_read_witness :
    (mkCellN (some 4) 100 0 : CellN Nat).getData 200 = none ∧
    (mkCellN (some 4) 100 0 : CellN Nat).getData 50
      = (mkCellN (some 4) 100 0 : CellN Nat).getRawData ∧
    (mkCellA 4 100 0 : CellA Nat).getData 200 = none ∧
    (mkCellA 4 100 0 : CellA Nat).getData 50 = some 4 :=
  ⟨(c6_getData_pure_read (mkCellN (some 4) 100 0) (mkCellA 4 100 0) 200).1 (by decide),
    (c6_getData_pure_read (mkCellN (some 4) 100 0) (mkCellA 4 100 0) 50).2.1 (by decide),
    (c6_getData_pure_read (mkCellN (some 4) 100 0) (mkCellA 4 100 0) 200).2.2.1 (by decide),
    (c6_getData_pure_read (mkCellN (some 4) 100 0) (mkCellA 4 100 0) 50).2.2.2 (by decide)⟩

/-- Counterexample to C7 as stated: after a successful
`refreshExpiresIn(0)` the nullable cell's `timeToLive` is `null` (the
duration `0` maps to the never-expires sentinel through `expIn`), not a
value `> 0` and `≤ 0` as the claim's universal quantification over
durations would require at `d = 0`. -/
theorem c7_counterexample :
    ((mkCellN (some 1) 60000 0 : CellN Nat).refreshExpiresInRun
        (Outcome.ok 2 : Outcome Nat Nat) 0 100).2.timeToLive 100 = none ∧
    ((mkCellN (some 1) 60000 0 : CellN Nat).refreshExpiresInRun
        (Outcome.ok 2 : Outcome Nat Nat) 0 100).2.doesExpire = false := by
  decide

/-- C7 (amended: the `timeToLive` clause restricted to durations `d > 0`, at
a non-negative clock): after a successful `refreshExpiresAt(t)` the
`expiresAt` accessor yields exactly `t` on either variant; and `timeToLive`
read at the instant a successful `refreshExpiresIn(d)` with `d > 0` settles
is some `x` with `0 < x ≤ d` (in fact exactly `d`). -/
theorem c7_round_trip (c : CellN T) (a : CellA T) (v u : T)
    (t dur now : Int) (hdur : 0 < dur) (hnow : 0 ≤ now) :
    (c.refreshExpiresAtRun (Outcome.ok v : Outcome ε T) t).2.expiresAt = t ∧
    (a.refreshExpiresAtRun (Outcome.ok u : Outcome ε T) t).2.expiresAt = t ∧
    ∃ x, (c.refreshExpiresInRun (Outcome.ok v : Outcome ε T) dur now).2.timeToLive now = some x ∧
      0 < x ∧ x ≤ dur := by
  refine ⟨rfl, rfl, dur, ?_, hdur, le_refl dur⟩
  have h0 : dur ≠ 0 := by omega
  have h1 : now + dur ≠ 0 := by omega
  simp [CellN.refreshExpiresInRun, CellN.setDataExpiresIn, CellN.setDataExpiresAt,
    CellN.timeToLive, CellN.doesExpire, expIn, h0, h1]
  omega

/-- Witness for C7 (amended) at `t = 12345`, `d = 77`, clock `50`. -/
theorem c7_round_trip_witness :
    ((mkCellN (some 1) 100 0 : CellN Nat).refreshExpiresAtRun
        (Outcome.ok 9 : Outcome Nat Nat) 12345).2.expiresAt = 12345 ∧
    ((mkCellA 5 100 0 : CellA Nat).refreshExpiresAtRun
        (Outcome.ok 8 : Outcome Nat Nat) 12345).2.expiresAt = 12345 ∧
    ∃ x, ((mkCellN (some 1) 100 0 : CellN Nat).refreshExpiresInRun
        (Outcome.ok 9 : Outcome Nat Nat) 77 50).2.timeToLive 50 = some x ∧
      0 < x ∧ x ≤ 77 :=
  c7_round_trip (mkCellN (some 1) 100 0) (mkCellA 5 100 0) 9 8 12345 77 50
    (by decide) (by decide)

/-- C10: on the nullable variant `setExpiresAt(0)` makes the cell never
expire — `doesExpire`, `isExpired` are false and `timeToLive` is `null`
afterwards, because the absolute timestamp `0` is the never-expires
sentinel — so the instant `0` itself cannot force expiration through
`setExpiresAt`; any negative instant (in particular `-1`) does force
expiration at every non-negative clock value. -/
theorem c10_setExpiresAt_zero (c : CellN T) (now t : Int)
    (ht : t < 0) (hnow : 0 ≤ now) :
    (c.setExpiresAt 0).doesExpire = false ∧
    (c.setExpiresAt 0).isExpired now = false ∧
    (c.setExpiresAt 0).timeToLive now = none ∧
    (c.setExpiresAt t).doesExpire = true ∧
    (c.setExpiresAt t).isExpired now = true ∧
    (c.setExpiresAt (-1)).isExpired now = true := by
  refine ⟨?_, ?_, ?_, ?_, ?_, ?_⟩ <;>
    simp [CellN.setExpiresAt, CellN.doesExpire, CellN.isExpired, CellN.timeToLive] <;>
    omega

/-- Witness for C10 at a concrete cell, clock `5`, negative instant `-7`. -/
theorem c10_setExpiresAt_zero_witness :
    ((mkCellN (some 3) 100 0 : CellN Nat).setExpiresAt 0).doesExpire = false ∧
    ((mkCellN (some 3) 100 0 : CellN Nat).setExpiresAt 0).isExpired 5 = false ∧
    ((mkCellN (some 3) 100 0 : CellN Nat).setExpiresAt 0).timeToLive 5 = none ∧
    ((mkCellN (some 3) 100 0 : CellN Nat).setExpiresAt (-7)).doesExpire = true ∧
    ((mkCellN (some 3) 100 0 : CellN Nat).setExpiresAt (-7)).isExpired 5 = true ∧
    ((mkCellN (some 3) 100 0 : CellN Nat).setExpiresAt (-1)).isExpired 5 = true :=
  c10_setExpiresAt_zero (mkCellN (some 3) 100 0) 5 (-7) (by decide) (by decide)

/-! ## Step inversion -/

/-- Every step happens at one task index, whose state and enabling conditions
it describes, and leaves every other task untouched. -/
theorem nstep_cases {f : Nat → A → Outcome ε T} {now : Int} {w w' : NWorld T A ε}
    (h : NStep f now w w') :
    ∃ i, SteppedAt f now w w' i ∧ ∀ j, j ≠ i → w'.tasks[j]? = w.tasks[j]? := by
  cases h with
  | startR i a hT hC =>
      refine ⟨i, Or.inl ⟨a, hT, hC, rfl⟩, fun j hj => ?_⟩
      simp only [NWorld.startRW]
      exact List.getElem?_set_ne (Ne.symm hj)
  | joinR i a cid hT hC =>
      refine ⟨i, Or.inr (Or.inl ⟨a, cid, hT, hC, rfl⟩), fun j hj => ?_⟩
      simp only [NWorld.joinRW]
      exact List.getElem?_set_ne (Ne.symm hj)
  | startG i a hT hE hC =>
      refine ⟨i, Or.inr (Or.inr (Or.inl ⟨a, hT, hE, hC, rfl⟩)), fun j hj => ?_⟩
      simp only [NWorld.startGW]
      exact List.getElem?_set_ne (Ne.symm hj)
  | joinG i a cid hT hE hC =>
      refine ⟨i, Or.inr (Or.inr (Or.inr (Or.inl ⟨a, cid, hT, hE, hC, rfl⟩))),
        fun j hj => ?_⟩
      simp only [NWorld.joinGW]
      exact List.getElem?_set_ne (Ne.symm hj)
  | skipG i a hT hE =>
      refine ⟨i, Or.inr (Or.inr (Or.inr (Or.inr (Or.inl ⟨a, hT, hE, rfl⟩)))),
        fun j hj => ?_⟩
      simp only [NWorld.skipGW]
      exact List.getElem?_set_ne (Ne.symm hj)
  | settleR i cid e hT hS hU =>
      refine ⟨i, Or.inr (Or.inr (Or.inr (Or.inr (Or.inr (Or.inl ⟨cid, e, hT, hS, hU, rfl⟩))))),
        fun j hj => ?_⟩
      simp only [NWorld.settleRW]
      exact List.getElem?_set_ne (Ne.symm hj)
  | settleG i cid e hT hS hU =>
      refine ⟨i, Or.inr (Or.inr (Or.inr (Or.inr (Or.inr (Or.inr (Or.inl
        ⟨cid, e, hT, hS, hU, rfl⟩)))))), fun j hj => ?_⟩
      simp only [NWorld.settleGW]
      exact List.getElem?_set_ne (Ne.symm hj)
  | wakeR i cid e hT hS hU =>
      refine ⟨i, Or.inr (Or.inr (Or.inr (Or.inr (Or.inr (Or.inr (Or.inr (Or.inl
        ⟨cid, e, hT, hS, hU, rfl⟩))))))), fun j hj => ?_⟩
      simp only [NWorld.wakeRW]
      exact List.getElem?_set_ne (Ne.symm hj)
  | wakeG i cid e hT hS hU =>
      refine ⟨i, Or.inr (Or.inr (Or.inr (Or.inr (Or.inr (Or.inr (Or.inr (Or.inr (Or.inl
        ⟨cid, e, hT, hS, hU, rfl⟩)))))))), fun j hj => ?_⟩
      simp only [NWorld.wakeGW]
      exact List.getElem?_set_ne (Ne.symm hj)
  | readG i hT =>
      refine ⟨i, Or.inr (Or.inr (Or.inr (Or.inr (Or.inr (Or.inr (Or.inr (Or.inr (Or.inr
        (Or.inl ⟨hT, rfl⟩))))))))), fun j hj => ?_⟩
      simp only [NWorld.readGW]
      exact List.getElem?_set_ne (Ne.symm hj)
  | startX i tgt a hT =>
      refine ⟨i, Or.inr (Or.inr (Or.inr (Or.inr (Or.inr (Or.inr (Or.inr (Or.inr (Or.inr
        (Or.inr (Or.inl ⟨tgt, a, hT, rfl⟩)))))))))), fun j hj => ?_⟩
      simp only [NWorld.startXW]
      exact List.getElem?_set_ne (Ne.symm hj)
  | settleX i cid tgt e hT hS hU =>
      refine ⟨i, Or.inr (Or.inr (Or.inr (Or.inr (Or.inr (Or.inr (Or.inr (Or.inr (Or.inr
        (Or.inr (Or.inr ⟨tgt, cid, e, hT, hS, hU, rfl⟩)))))))))), fun j hj => ?_⟩
      simp only [NWorld.settleXW]
      exact List.getElem?_set_ne (Ne.symm hj)

/-- C8: `refreshExpiresAt` / `refreshExpiresIn` invoke the refresh callback
unconditionally on each call — the entry step is enabled in every world, in
particular while a plain refresh is in flight, and it is the only transition
from a pending explicit-expiry call, so each of several concurrent calls
triggers its own separate invocation; neither the entry nor the completion
reads or modifies the in-flight handle, and on success the new value and the
explicit expiry are set together in the one completion step, in place of the
default TTL. -/
theorem c8_explicit_refresh_bypasses_handle (f : Nat → A → Outcome ε T) :
    (∀ (w : NWorld T A ε) (now : Int) (i : Nat) (tgt : XTgt) (a : A),
      w.tasks[i]? = some (NTask.callX tgt a) →
      NStep f now w (w.startXW f i tgt a)) ∧
    (∀ (w w' : NWorld T A ε) (now : Int) (i : Nat) (tgt : XTgt) (a : A),
      NStep f now w w' →
      w.tasks[i]? = some (NTask.callX tgt a) →
      w'.tasks[i]? ≠ some (NTask.callX tgt a) →
      w' = w.startXW f i tgt a ∧
      w'.cell = w.cell ∧
      w'.comps.length = w.comps.length + 1 ∧
      w'.comps[w.comps.length]? = some ⟨a, f w.comps.length a, false, false⟩) ∧
    (∀ (w w' : NWorld T A ε) (now : Int) (i cid : Nat) (tgt : XTgt) (e : Comp A ε T),
      NStep f now w w' →
      w.tasks[i]? = some (NTask.initX tgt cid) →
      w'.tasks[i]? ≠ some (NTask.initX tgt cid) →
      w.comps[cid]? = some e →
      w'.cell.refreshCb = w.cell.refreshCb ∧
      w'.tasks[i]? = some (NTask.doneX e.outcome.toUnit) ∧
      (∀ v, e.outcome = Outcome.ok v →
        w'.cell.data = some v ∧ w'.cell.expiresAt = tgt.resolve now) ∧
      (∀ er, e.outcome = Outcome.fail er → w'.cell = w.cell)) := by
  refine ⟨fun w now i tgt a hi => NStep.startX w i tgt a hi, ?_, ?_⟩
  · intro w w' now i tgt a hstep hi hne
    obtain ⟨i0, hc, hfr⟩ := nstep_cases hstep
    by_cases hi0 : i0 = i
    · subst hi0
      rcases hc with ⟨a',hT,hC,rfl⟩|⟨a',cid',hT,hC,rfl⟩|⟨a',hT,hE,hC,rfl⟩|
        ⟨a',cid',hT,hE,hC,rfl⟩|⟨a',hT,hE,rfl⟩|⟨cid',e',hT,hS,hU,rfl⟩|
        ⟨cid',e',hT,hS,hU,rfl⟩|⟨cid',e',hT,hS,hU,rfl⟩|⟨cid',e',hT,hS,hU,rfl⟩|
        ⟨hT,rfl⟩|⟨tgt',a',hT,rfl⟩|⟨tgt',cid',e',hT,hS,hU,rfl⟩ <;>
        rw [hi] at hT <;> simp at hT
      obtain ⟨h1, h2⟩ := hT
      subst h1
      subst h2
      have hlen : i0 < w.tasks.length := (List.getElem?_eq_some_iff.mp hi).1
      refine ⟨rfl, rfl, ?_, ?_⟩
      · simp [NWorld.startXW]
      · simp only [NWorld.startXW]
        exact List.getElem?_concat_length _ _
    · have hiu : i ≠ i0 := fun h => hi0 h.symm
      exact absurd ((hfr i hiu).trans hi) hne
  · intro w w' now i cid tgt e hstep hi hne hcomp
    obtain ⟨i0, hc, hfr⟩ := nstep_cases hstep
    by_cases hi0 : i0 = i
    · subst hi0
      rcases hc with ⟨a',hT,hC,rfl⟩|⟨a',cid',hT,hC,rfl⟩|⟨a',hT,hE,hC,rfl⟩|
        ⟨a',cid',hT,hE,hC,rfl⟩|⟨a',hT,hE,rfl⟩|⟨cid',e',hT,hS,hU,rfl⟩|
        ⟨cid',e',hT,hS,hU,rfl⟩|⟨cid',e',hT,hS,hU,rfl⟩|⟨cid',e',hT,hS,hU,rfl⟩|
        ⟨hT,rfl⟩|⟨tgt',a',hT,rfl⟩|⟨tgt',cid',e',hT,hS,hU,rfl⟩ <;>
        rw [hi] at hT <;> simp at hT
      obtain ⟨h1, h2⟩ := hT
      subst h1
      subst h2
      rw [hcomp] at hS
      have he : e = e' := by
        injection hS
      subst he
      have hlen : i0 < w.tasks.length := (List.getElem?_eq_some_iff.mp hi).1
      refine ⟨?_, ?_, ?_, ?_⟩
      · cases ho : e.outcome <;>
          simp [NWorld.settleXW, CellN.setDataExpiresAt, ho]
      · simp only [NWorld.settleXW]
        simp [hlen]
      · intro v hv
        simp [NWorld.settleXW, CellN.setDataExpiresAt, hv]
      · intro er her
        simp [NWorld.settleXW, her]
    · have hiu : i ≠ i0 := fun h => hi0 h.symm
      exact absurd ((hfr i hiu).trans hi) hne

/-- Witness for C8: with a plain refresh in flight (`_refreshCb = some 0`),
a pending `refreshExpiresAt(500, 4)` both starts (its own invocation, cell
untouched) and completes (value `5` and expiry `500` stored together), the
handle still holding `some 0` throughout. -/
theorem c8_explicit_refresh_bypasses_handle_witness :
    NStep c8f 3 c8w0 (c8w0.startXW c8f 1 (XTgt.atTime 500) 4) ∧
    (c8w0.startXW c8f 1 (XTgt.atTime 500) 4).cell = c8w0.cell ∧
    (c8w0.startXW c8f 1 (XTgt.atTime 500) 4).comps.length = 2 ∧
    (c8w0.startXW c8f 1 (XTgt.atTime 500) 4).comps[1]?
      = some ⟨4, c8f 1 4, false, false⟩ ∧
    ((c8w0.startXW c8f 1 (XTgt.atTime 500) 4).settleXW 1 1 (XTgt.atTime 500)
        ⟨4, Outcome.ok 5, false, false⟩ 7).cell.refreshCb
      = (c8w0.startXW c8f 1 (XTgt.atTime 500) 4).cell.refreshCb ∧
    ((c8w0.startXW c8f 1 (XTgt.atTime 500) 4).settleXW 1 1 (XTgt.atTime 500)
        ⟨4, Outcome.ok 5, false, false⟩ 7).cell.data = some 5 ∧
    ((c8w0.startXW c8f 1 (XTgt.atTime 500) 4).settleXW 1 1 (XTgt.atTime 500)
        ⟨4, Outcome.ok 5, false, false⟩ 7).cell.expiresAt = 500 := by
  have h1 : NStep c8f 3 c8w0 (c8w0.startXW c8f 1 (XTgt.atTime 500) 4) :=
    (c8_explicit_refresh_bypasses_handle c8f).1 c8w0 3 1 (XTgt.atTime 500) 4 (by decide)
  have h2 := (c8_explicit_refresh_bypasses_handle c8f).2.1
    c8w0 (c8w0.startXW c8f 1 (XTgt.atTime 500) 4) 3 1 (XTgt.atTime 500) 4
    h1 (by decide) (by decide)
  have h3 : NStep c8f 7 (c8w0.startXW c8f 1 (XTgt.atTime 500) 4)
      ((c8w0.startXW c8f 1 (XTgt.atTime 500) 4).settleXW 1 1 (XTgt.atTime 500)
        ⟨4, Outcome.ok 5, false, false⟩ 7) :=
    NStep.settleX _ 1 1 (XTgt.atTime 500) ⟨4, Outcome.ok 5, false, false⟩
      (by decide) (by decide) (by decide)
  have h4 := (c8_explicit_refresh_bypasses_handle c8f).2.2
    (c8w0.startXW c8f 1 (XTgt.atTime 500) 4)
    ((c8w0.startXW c8f 1 (XTgt.atTime 500) 4).settleXW 1 1 (XTgt.atTime 500)
      ⟨4, Outcome.ok 5, false, false⟩ 7)
    7 1 1 (XTgt.atTime 500) ⟨4, Outcome.ok 5, false, false⟩
    h3 (by decide) (by decide) (by decide)
  exact ⟨h1, h2.2.1, h2.2.2.1, h2.2.2.2, h4.1, (h4.2.2.1 5 rfl).1, (h4.2.2.1 5 rfl).2⟩

/-- C9: a `refresh` call that finds an in-flight refresh joins it, discarding
its own arguments entirely — the join makes no invocation and leaves the
whole invocation log and cell untouched — and on waking the joiner receives
exactly the logged outcome of the invocation it awaited; only an entry step
taken with no refresh in flight appends an invocation, and that invocation
carries the entering caller's own arguments. -/
theorem c9_join_discards_args (f : Nat → A → Outcome ε T) :
    (∀ (w w' : NWorld T A ε) (now : Int) (i cid : Nat) (a : A),
      NStep f now w w' →
      w.tasks[i]? = some (NTask.callR a) →
      w.cell.refreshCb = some cid →
      w'.tasks[i]? ≠ some (NTask.callR a) →
      w'.comps = w.comps ∧ w'.cell = w.cell ∧
        w'.tasks[i]? = some (NTask.waitR cid)) ∧
    (∀ (w w' : NWorld T A ε) (now : Int) (i cid : Nat),
      NStep f now w w' →
      w.tasks[i]? = some (NTask.waitR cid) →
      w'.tasks[i]? ≠ some (NTask.waitR cid) →
      ∃ e, w.comps[cid]? = some e ∧ e.settled = true ∧
        w'.comps = w.comps ∧
        w'.tasks[i]? = some (NTask.doneR e.outcome.toUnit)) ∧
    (∀ (w w' : NWorld T A ε) (now : Int) (i : Nat) (a : A),
      NStep f now w w' →
      w.tasks[i]? = some (NTask.callR a) →
      w.cell.refreshCb = none →
      w'.tasks[i]? ≠ some (NTask.callR a) →
      w'.comps = w.comps ++ [⟨a, f w.comps.length a, true, false⟩] ∧
        w'.tasks[i]? = some (NTask.initR w.comps.length)) := by
  refine ⟨?_, ?_, ?_⟩
  · intro w w' now i cid a hstep hi hcb hne
    obtain ⟨i0, hc, hfr⟩ := nstep_cases hstep
    by_cases hi0 : i0 = i
    · subst hi0
      rcases hc with ⟨a',hT,hC,rfl⟩|⟨a',cid',hT,hC,rfl⟩|⟨a',hT,hE,hC,rfl⟩|
        ⟨a',cid',hT,hE,hC,rfl⟩|⟨a',hT,hE,rfl⟩|⟨cid',e',hT,hS,hU,rfl⟩|
        ⟨cid',e',hT,hS,hU,rfl⟩|⟨cid',e',hT,hS,hU,rfl⟩|⟨cid',e',hT,hS,hU,rfl⟩|
        ⟨hT,rfl⟩|⟨tgt',a',hT,rfl⟩|⟨tgt',cid',e',hT,hS,hU,rfl⟩ <;>
        rw [hi] at hT <;> simp at hT
      · rw [hC] at hcb
        cases hcb
      · subst hT
        rw [hC] at hcb
        have hcid : cid' = cid := by
          injection hcb
        subst hcid
        have hlen : i0 < w.tasks.length := (List.getElem?_eq_some_iff.mp hi).1
        refine ⟨rfl, rfl, ?_⟩
        simp [NWorld.joinRW, hlen]
    · have hiu : i ≠ i0 := fun h => hi0 h.symm
      exact absurd ((hfr i hiu).trans hi) hne
  · intro w w' now i cid hstep hi hne
    obtain ⟨i0, hc, hfr⟩ := nstep_cases hstep
    by_cases hi0 : i0 = i
    · subst hi0
      rcases hc with ⟨a',hT,hC,rfl⟩|⟨a',cid',hT,hC,rfl⟩|⟨a',hT,hE,hC,rfl⟩|
        ⟨a',cid',hT,hE,hC,rfl⟩|⟨a',hT,hE,rfl⟩|⟨cid',e',hT,hS,hU,rfl⟩|
        ⟨cid',e',hT,hS,hU,rfl⟩|⟨cid',e',hT,hS,hU,rfl⟩|⟨cid',e',hT,hS,hU,rfl⟩|
        ⟨hT,rfl⟩|⟨tgt',a',hT,rfl⟩|⟨tgt',cid',e',hT,hS,hU,rfl⟩ <;>
        rw [hi] at hT <;> simp at hT
      subst hT
      have hlen : i0 < w.tasks.length := (List.getElem?_eq_some_iff.mp hi).1
      refine ⟨e', hS, hU, rfl, ?_⟩
      simp [NWorld.wakeRW, hlen]
    · have hiu : i ≠ i0 := fun h => hi0 h.symm
      exact absurd ((hfr i hiu).trans hi) hne
  · intro w w' now i a hstep hi hcb hne
    obtain ⟨i0, hc, hfr⟩ := nstep_cases hstep
    by_cases hi0 : i0 = i
    · subst hi0
      rcases hc with ⟨a',hT,hC,rfl⟩|⟨a',cid',hT,hC,rfl⟩|⟨a',hT,hE,hC,rfl⟩|
        ⟨a',cid',hT,hE,hC,rfl⟩|⟨a',hT,hE,rfl⟩|⟨cid',e',hT,hS,hU,rfl⟩|
        ⟨cid',e',hT,hS,hU,rfl⟩|⟨cid',e',hT,hS,hU,rfl⟩|⟨cid',e',hT,hS,hU,rfl⟩|
        ⟨hT,rfl⟩|⟨tgt',a',hT,rfl⟩|⟨tgt',cid',e',hT,hS,hU,rfl⟩ <;>
        rw [hi] at hT <;> simp at hT
      · subst hT
        have hlen : i0 < w.tasks.length := (List.getElem?_eq_some_iff.mp hi).1
        refine ⟨rfl, ?_⟩
        simp [NWorld.startRW, hlen]
      · rw [hC] at hcb
        cases hcb
    · have hiu : i ≠ i0 := fun h => hi0 h.symm
      exact absurd ((hfr i hiu).trans hi) hne

/-- Witness for C9: caller `1` (arguments `20`) joins the refresh started by
caller `0` (arguments `10`); the log keeps the single invocation with
arguments `10` and caller `1` ends with that invocation's outcome. -/
theorem c9_join_discards_args_witness :
    ((c9w0.startRW c9f 0 10).joinRW 1 0).comps = (c9w0.startRW c9f 0 10).comps ∧
    ((c9w0.startRW c9f 0 10).joinRW 1 0).cell = (c9w0.startRW c9f 0 10).cell ∧
    ((c9w0.startRW c9f 0 10).joinRW 1 0).tasks[1]? = some (NTask.waitR 0) ∧
    (∃ e, (((c9w0.startRW c9f 0 10).joinRW 1 0).settleRW 0 0
          ⟨10, Outcome.ok 1000, true, false⟩ 6).comps[0]? = some e ∧
      e.settled = true ∧
      ((((c9w0.startRW c9f 0 10).joinRW 1 0).settleRW 0 0
          ⟨10, Outcome.ok 1000, true, false⟩ 6).wakeRW 1
          ⟨10, Outcome.ok 1000, true, true⟩).comps
        = (((c9w0.startRW c9f 0 10).joinRW 1 0).settleRW 0 0
          ⟨10, Outcome.ok 1000, true, false⟩ 6).comps ∧
      ((((c9w0.startRW c9f 0 10).joinRW 1 0).settleRW 0 0
          ⟨10, Outcome.ok 1000, true, false⟩ 6).wakeRW 1
          ⟨10, Outcome.ok 1000, true, true⟩).tasks[1]?
        = some (NTask.doneR e.outcome.toUnit)) ∧
    (c9w0.startRW c9f 0 10).comps
      = c9w0.comps ++ [⟨10, c9f 0 10, true, false⟩] ∧
    (c9w0.startRW c9f 0 10).tasks[0]? = some (NTask.initR 0) := by
  have h1 : NStep c9f 4 c9w0 (c9w0.startRW c9f 0 10) :=
    NStep.startR c9w0 0 10 (by decide) (by decide)
  have h2 : NStep c9f 5 (c9w0.startRW c9f 0 10) ((c9w0.startRW c9f 0 10).joinRW 1 0) :=
    NStep.joinR _ 1 20 0 (by decide) (by decide)
  have h3 : NStep c9f 6 ((c9w0.startRW c9f 0 10).joinRW 1 0)
      (((c9w0.startRW c9f 0 10).joinRW 1 0).settleRW 0 0
        ⟨10, Outcome.ok 1000, true, false⟩ 6) :=
    NStep.settleR _ 0 0 ⟨10, Outcome.ok 1000, true, false⟩
      (by decide) (by decide) (by decide)
  have h4 : NStep c9f 8 (((c9w0.startRW c9f 0 10).joinRW 1 0).settleRW 0 0
        ⟨10, Outcome.ok 1000, true, false⟩ 6)
      ((((c9w0.startRW c9f 0 10).joinRW 1 0).settleRW 0 0
        ⟨10, Outcome.ok 1000, true, false⟩ 6).wakeRW 1
        ⟨10, Outcome.ok 1000, true, true⟩) :=
    NStep.wakeR _ 1 0 ⟨10, Outcome.ok 1000, true, true⟩
      (by decide) (by decide) (by decide)
  have p1 := (c9_join_discards_args c9f).1 (c9w0.startRW c9f 0 10)
    ((c9w0.startRW c9f 0 10).joinRW 1 0) 5 1 0 20 h2 (by decide) (by decide) (by decide)
  have p2 := (c9_join_discards_args c9f).2.1
    (((c9w0.startRW c9f 0 10).joinRW 1 0).settleRW 0 0
      ⟨10, Outcome.ok 1000, true, false⟩ 6)
    ((((c9w0.startRW c9f 0 10).joinRW 1 0).settleRW 0 0
      ⟨10, Outcome.ok 1000, true, false⟩ 6).wakeRW 1
      ⟨10, Outcome.ok 1000, true, true⟩)
    8 1 0 h4 (by decide) (by decide)
  have p3 := (c9_join_discards_args c9f).2.2 c9w0 (c9w0.startRW c9f 0 10)
    4 0 10 h1 (by decide) (by decide) (by decide)
  exact ⟨p1.1, p1.2.1, p1.2.2, p2, p3.1, p3.2⟩

/-! ## Global invariant: establishment and preservation -/

/-- Case split for a lookup in a list with one element appended. -/
theorem getElem?_concat_cases {α : Type} {l : List α} {x e : α} {i : Nat}
    (h : (l ++ [x])[i]? = some e) :
    l[i]? = some e ∨ (i = l.length ∧ e = x) := by
  by_cases hi : i < l.length
  · left
    rwa [List.getElem?_append_left hi] at h
  · right
    have hlen : i < (l ++ [x]).length := (List.getElem?_eq_some_iff.mp h).1
    simp only [List.length_append, List.length_cons, List.length_nil] at hlen
    have hi' : i = l.length := by omega
    subst hi'
    rw [List.getElem?_concat_length] at h
    injection h with h
    exact ⟨rfl, h.symm⟩

/-- Case split for a lookup in a list with one element overwritten. -/
theorem getElem?_set_cases {α : Type} {l : List α} {x e : α} {i j : Nat}
    (h : (l.set i x)[j]? = some e) :
    (i ≠ j ∧ l[j]? = some e) ∨ (i = j ∧ i < l.length ∧ e = x) ∨
      (i = j ∧ l.length ≤ i ∧ l[j]? = some e) := by
  by_cases hij : i = j
  · subst hij
    by_cases hlen : i < l.length
    · right
      left
      rw [List.getElem?_set_self hlen] at h
      injection h with h
      exact ⟨rfl, hlen, h.symm⟩
    · right
      right
      rw [List.set_eq_of_length_le (by omega)] at h
      exact ⟨rfl, by omega, h⟩
  · left
    rw [List.getElem?_set_ne hij] at h
    exact ⟨hij, h⟩

/-- The post-refresh task of a `getDataOrRefresh` caller is past its entry. -/
theorem past_gReaction (o : Outcome ε T) (cid : Nat) :
    NTask.Past (gReaction o : NTask A ε T) cid := by
  cases o <;> simp [gReaction, NTask.Past, NTask.IsDone]

/-- The post-refresh task of a `getDataOrRefresh` caller is not an
explicit-expiry caller. -/
theorem isRG_gReaction (o : Outcome ε T) :
    NTask.IsRG (gReaction o : NTask A ε T) := by
  cases o <;> simp [gReaction, NTask.IsRG]

/-- The initiator's settlement reaction always leaves `_refreshCb` cleared,
on success and on failure alike — the `finally` body. -/
theorem settleCell_refreshCb (o : Outcome ε T) (now : Int) (c : CellN T) :
    (settleCell o now c).refreshCb = none := by
  cases o <;> rfl

/-- A fresh world satisfies the global invariant. -/
theorem ginv_fresh {f : Nat → A → Outcome ε T} {w : NWorld T A ε}
    (hw : w.Fresh) : GInv f w := by
  obtain ⟨hcomps, hcb, htasks⟩ := hw
  refine ⟨?_, ?_, ?_, ?_, ?_, ?_, ?_, ?_⟩
  · intro cid e he
    rw [hcomps] at he
    simp at he
  · intro cid hc
    rw [hcb] at hc
    exact Option.noConfusion hc
  · intro i cid hinit
    exfalso
    rcases hinit with h | h <;>
      rcases htasks _ (List.getElem?_mem h) with ⟨a, ha⟩ | ⟨a, ha⟩ <;>
      exact NTask.noConfusion ha
  · intro cid h1 h2
    rw [hcomps] at h2
    simp at h2
  · intro i cid hwait
    exfalso
    rcases hwait with h | h <;>
      rcases htasks _ (List.getElem?_mem h) with ⟨a, ha⟩ | ⟨a, ha⟩ <;>
      exact NTask.noConfusion ha
  · intro cid e he
    rw [hcomps] at he
    simp at he
  · intro i t ht
    rcases htasks _ (List.getElem?_mem ht) with ⟨a, ha⟩ | ⟨a, ha⟩ <;>
      subst ha <;> simp [NTask.IsRG]
  · intro cid e he
    rw [hcomps] at he
    simp at he

/-- One step preserves the global invariant. -/
theorem ginv_step {f : Nat → A → Outcome ε T} {now : Int} {w w' : NWorld T A ε}
    (hw : GInv f w) (h : NStep f now w w') : GInv f w' := by
  cases h with
  | startR i a hT hC =>
      have hall : ∀ (cid : Nat) (e : Comp A ε T), w.comps[cid]? = some e → e.settled = true := by
        intro cid e he
        by_contra hne
        have hst : e.settled = false := by
          revert hne
          cases e.settled <;> simp
        have := hw.g1 cid e he hst (hw.g8 cid e he)
        rw [hC] at this
        exact Option.noConfusion this
      have hiT : i < w.tasks.length := (List.getElem?_eq_some_iff.mp hT).1
      refine ⟨?_, ?_, ?_, ?_, ?_, ?_, ?_, ?_⟩
      · intro cid e he hs hv
        rcases getElem?_concat_cases he with hold | ⟨hcid, hex⟩
        · rw [hall cid e hold] at hs
          exact Bool.noConfusion hs
        · show some w.comps.length = some cid
          rw [hcid]
        -- the new invocation is the one the handle now holds
      · intro cid hc
        injection hc with hc
        subst hc
        exact ⟨_, List.getElem?_concat_length _ _, rfl, rfl⟩
      · intro j cj hinit
        have hji : j = i := by
          rcases hinit with h | h <;>
            rcases getElem?_set_cases h with ⟨hne, hold⟩ | ⟨heq, hlt, hex⟩ | ⟨heq, hge, hold⟩ <;>
            first
            | (exact absurd ((hw.g3 j cj (Or.inl hold)).1.symm.trans hC).symm
                (by exact Option.noConfusion))
            | (exact absurd ((hw.g3 j cj (Or.inr hold)).1.symm.trans hC).symm
                (by exact Option.noConfusion))
            | exact heq.symm
        subst hji
        constructor
        · rcases hinit with h | h <;>
            rcases getElem?_set_cases h with ⟨hne, hold⟩ | ⟨heq, hlt, hex⟩ | ⟨heq, hge, hold⟩ <;>
            first
            | exact absurd rfl hne
            | (injection hex with hex
               subst hex
               rfl)
            | omega
            | exact NTask.noConfusion hex
        · intro j' cj' hinit'
          rcases hinit' with h | h <;>
            rcases getElem?_set_cases h with ⟨hne, hold⟩ | ⟨heq, hlt, hex⟩ | ⟨heq, hge, hold⟩ <;>
            first
            | (exfalso
               have := (hw.g3 j' cj' (Or.inl hold)).1
               rw [hC] at this
               exact Option.noConfusion this)
            | (exfalso
               have := (hw.g3 j' cj' (Or.inr hold)).1
               rw [hC] at this
               exact Option.noConfusion this)
            | exact heq.symm
            | omega
      · intro cid h1 h2
        have h2' : cid < w.comps.length + 1 := by
          simpa [NWorld.startRW] using h2
        by_cases hc : cid < w.comps.length
        · obtain ⟨i1, t1, ht1, hp1⟩ := hw.g4 cid h1 hc
          by_cases hii : i1 = i
          · subst hii
            rw [hT] at ht1
            injection ht1 with ht1
            subst ht1
            exact absurd hp1 (by simp [NTask.Past, NTask.IsDone])
          · exact ⟨i1, t1, by
              show (w.tasks.set i _)[i1]? = some t1
              rw [List.getElem?_set_ne (fun hh => hii hh.symm)]
              exact ht1, hp1⟩
        · have hcid : cid = w.comps.length := by omega
          subst hcid
          exact ⟨i, NTask.initR w.comps.length, by
            show (w.tasks.set i _)[i]? = some _
            rw [List.getElem?_set_self hiT], Or.inl rfl⟩
      · intro j cj hwait
        have hlen : (w.startRW f i a).comps.length = w.comps.length + 1 := by
          simp [NWorld.startRW]
        rw [hlen]
        rcases hwait with h | h <;>
          rcases getElem?_set_cases h with ⟨hne, hold⟩ | ⟨heq, hlt, hex⟩ | ⟨heq, hge, hold⟩ <;>
          first
          | exact Nat.lt_succ_of_lt (hw.g5 j cj (Or.inl hold))
          | exact Nat.lt_succ_of_lt (hw.g5 j cj (Or.inr hold))
          | exact NTask.noConfusion hex
      · intro cid e he
        rcases getElem?_concat_cases he with hold | ⟨hcid, hex⟩
        · exact hw.g6 cid e hold
        · subst hcid
          subst hex
          rfl
      · intro j t ht
        rcases getElem?_set_cases ht with ⟨hne, hold⟩ | ⟨heq, hlt, hex⟩ | ⟨heq, hge, hold⟩
        · exact hw.g7 j t hold
        · subst hex
          simp [NTask.IsRG]
        · exact hw.g7 j t hold
      · intro cid e he
        rcases getElem?_concat_cases he with hold | ⟨hcid, hex⟩
        · exact hw.g8 cid e hold
        · subst hex
          rfl
  | joinR i a cid hT hC =>
      have hiT : i < w.tasks.length := (List.getElem?_eq_some_iff.mp hT).1
      refine ⟨hw.g1, hw.g2, ?_, ?_, ?_, hw.g6, ?_, hw.g8⟩
      · intro j cj hinit
        have hold : w.tasks[j]? = some (NTask.initR cj) ∨ w.tasks[j]? = some (NTask.initG cj) := by
          rcases hinit with h | h <;>
            rcases getElem?_set_cases h with ⟨hne, hold⟩ | ⟨heq, hlt, hex⟩ | ⟨heq, hge, hold⟩ <;>
            first
            | exact Or.inl hold
            | exact Or.inr hold
            | exact NTask.noConfusion hex
        refine ⟨(hw.g3 j cj hold).1, ?_⟩
        intro j' cj' hinit'
        have hold' : w.tasks[j']? = some (NTask.initR cj') ∨ w.tasks[j']? = some (NTask.initG cj') := by
          rcases hinit' with h | h <;>
            rcases getElem?_set_cases h with ⟨hne, hold'⟩ | ⟨heq, hlt, hex⟩ | ⟨heq, hge, hold'⟩ <;>
            first
            | exact Or.inl hold'
            | exact Or.inr hold'
            | exact NTask.noConfusion hex
        exact (hw.g3 j cj hold).2 j' cj' hold'
      · intro cid' h1 h2
        obtain ⟨i1, t1, ht1, hp1⟩ := hw.g4 cid' h1 h2
        by_cases hii : i1 = i
        · subst hii
          rw [hT] at ht1
          injection ht1 with ht1
          subst ht1
          exact absurd hp1 (by simp [NTask.Past, NTask.IsDone])
        · exact ⟨i1, t1, by
            show (w.tasks.set i _)[i1]? = some t1
            rw [List.getElem?_set_ne (fun hh => hii hh.symm)]
            exact ht1, hp1⟩
      · intro j cj hwait
        rcases hwait with h | h <;>
          rcases getElem?_set_cases h with ⟨hne, hold⟩ | ⟨heq, hlt, hex⟩ | ⟨heq, hge, hold⟩
        · exact hw.g5 j cj (Or.inl hold)
        · injection hex with hex
          subst hex
          obtain ⟨e, he, _, _⟩ := hw.g2 cj hC
          exact (List.getElem?_eq_some_iff.mp he).1
        · exact hw.g5 j cj (Or.inl hold)
        · exact hw.g5 j cj (Or.inr hold)
        · exact NTask.noConfusion hex
        · exact hw.g5 j cj (Or.inr hold)
      · intro j t ht
        rcases getElem?_set_cases ht with ⟨hne, hold⟩ | ⟨heq, hlt, hex⟩ | ⟨heq, hge, hold⟩
        · exact hw.g7 j t hold
        · subst hex
          simp [NTask.IsRG]
        · exact hw.g7 j t hold
  | startG i a hT hE hC =>
      have hall : ∀ (cid : Nat) (e : Comp A ε T), w.comps[cid]? = some e → e.settled = true := by
        intro cid e he
        by_contra hne
        have hst : e.settled = false := by
          revert hne
          cases e.settled <;> simp
        have := hw.g1 cid e he hst (hw.g8 cid e he)
        rw [hC] at this
        exact Option.noConfusion this
      have hiT : i < w.tasks.length := (List.getElem?_eq_some_iff.mp hT).1
      refine ⟨?_, ?_, ?_, ?_, ?_, ?_, ?_, ?_⟩
      · intro cid e he hs hv
        rcases getElem?_concat_cases he with hold | ⟨hcid, hex⟩
        · rw [hall cid e hold] at hs
          exact Bool.noConfusion hs
        · show some w.comps.length = some cid
          rw [hcid]
      · intro cid hc
        injection hc with hc
        subst hc
        exact ⟨_, List.getElem?_concat_length _ _, rfl, rfl⟩
      · intro j cj hinit
        have hji : j = i := by
          rcases hinit with h | h <;>
            rcases getElem?_set_cases h with ⟨hne, hold⟩ | ⟨heq, hlt, hex⟩ | ⟨heq, hge, hold⟩ <;>
            first
            | (exact absurd ((hw.g3 j cj (Or.inl hold)).1.symm.trans hC).symm
                (by exact Option.noConfusion))
            | (exact absurd ((hw.g3 j cj (Or.inr hold)).1.symm.trans hC).symm
                (by exact Option.noConfusion))
            | exact heq.symm
        subst hji
        constructor
        · rcases hinit with h | h <;>
            rcases getElem?_set_cases h with ⟨hne, hold⟩ | ⟨heq, hlt, hex⟩ | ⟨heq, hge, hold⟩ <;>
            first
            | exact absurd rfl hne
            | (injection hex with hex
               subst hex
               rfl)
            | omega
            | exact NTask.noConfusion hex
        · intro j' cj' hinit'
          rcases hinit' with h | h <;>
            rcases getElem?_set_cases h with ⟨hne, hold⟩ | ⟨heq, hlt, hex⟩ | ⟨heq, hge, hold⟩ <;>
            first
            | (exfalso
               have := (hw.g3 j' cj' (Or.inl hold)).1
               rw [hC] at this
               exact Option.noConfusion this)
            | (exfalso
               have := (hw.g3 j' cj' (Or.inr hold)).1
               rw [hC] at this
               exact Option.noConfusion this)
            | exact heq.symm
            | omega
      · intro cid h1 h2
        have h2' : cid < w.comps.length + 1 := by
          simpa [NWorld.startGW] using h2
        by_cases hc : cid < w.comps.length
        · obtain ⟨i1, t1, ht1, hp1⟩ := hw.g4 cid h1 hc
          by_cases hii : i1 = i
          · subst hii
            rw [hT] at ht1
            injection ht1 with ht1
            subst ht1
            exact absurd hp1 (by simp [NTask.Past, NTask.IsDone])
          · exact ⟨i1, t1, by
              show (w.tasks.set i _)[i1]? = some t1
              rw [List.getElem?_set_ne (fun hh => hii hh.symm)]
              exact ht1, hp1⟩
        · have hcid : cid = w.comps.length := by omega
          subst hcid
          exact ⟨i, NTask.initG w.comps.length, by
            show (w.tasks.set i _)[i]? = some _
            rw [List.getElem?_set_self hiT], Or.inr (Or.inl rfl)⟩
      · intro j cj hwait
        have hlen : (w.startGW f i a).comps.length = w.comps.length + 1 := by
          simp [NWorld.startGW]
        rw [hlen]
        rcases hwait with h | h <;>
          rcases getElem?_set_cases h with ⟨hne, hold⟩ | ⟨heq, hlt, hex⟩ | ⟨heq, hge, hold⟩ <;>
          first
          | exact Nat.lt_succ_of_lt (hw.g5 j cj (Or.inl hold))
          | exact Nat.lt_succ_of_lt (hw.g5 j cj (Or.inr hold))
          | exact NTask.noConfusion hex
      · intro cid e he
        rcases getElem?_concat_cases he with hold | ⟨hcid, hex⟩
        · exact hw.g6 cid e hold
        · subst hcid
          subst hex
          rfl
      · intro j t ht
        rcases getElem?_set_cases ht with ⟨hne, hold⟩ | ⟨heq, hlt, hex⟩ | ⟨heq, hge, hold⟩
        · exact hw.g7 j t hold
        · subst hex
          simp [NTask.IsRG]
        · exact hw.g7 j t hold
      · intro cid e he
        rcases getElem?_concat_cases he with hold | ⟨hcid, hex⟩
        · exact hw.g8 cid e hold
        · subst hex
          rfl
  | joinG i a cid hT hE hC =>
      have hiT : i < w.tasks.length := (List.getElem?_eq_some_iff.mp hT).1
      refine ⟨hw.g1, hw.g2, ?_, ?_, ?_, hw.g6, ?_, hw.g8⟩
      · intro j cj hinit
        have hold : w.tasks[j]? = some (NTask.initR cj) ∨ w.tasks[j]? = some (NTask.initG cj) := by
          rcases hinit with h | h <;>
            rcases getElem?_set_cases h with ⟨hne, hold⟩ | ⟨heq, hlt, hex⟩ | ⟨heq, hge, hold⟩ <;>
            first
            | exact Or.inl hold
            | exact Or.inr hold
            | exact NTask.noConfusion hex
        refine ⟨(hw.g3 j cj hold).1, ?_⟩
        intro j' cj' hinit'
        have hold' : w.tasks[j']? = some (NTask.initR cj') ∨ w.tasks[j']? = some (NTask.initG cj') := by
          rcases hinit' with h | h <;>
            rcases getElem?_set_cases h with ⟨hne, hold'⟩ | ⟨heq, hlt, hex⟩ | ⟨heq, hge, hold'⟩ <;>
            first
            | exact Or.inl hold'
            | exact Or.inr hold'
            | exact NTask.noConfusion hex
        exact (hw.g3 j cj hold).2 j' cj' hold'
      · intro cid' h1 h2
        obtain ⟨i1, t1, ht1, hp1⟩ := hw.g4 cid' h1 h2
        by_cases hii : i1 = i
        · subst hii
          rw [hT] at ht1
          injection ht1 with ht1
          subst ht1
          exact absurd hp1 (by simp [NTask.Past, NTask.IsDone])
        · exact ⟨i1, t1, by
            show (w.tasks.set i _)[i1]? = some t1
            rw [List.getElem?_set_ne (fun hh => hii hh.symm)]
            exact ht1, hp1⟩
      · intro j cj hwait
        rcases hwait with h | h <;>
          rcases getElem?_set_cases h with ⟨hne, hold⟩ | ⟨heq, hlt, hex⟩ | ⟨heq, hge, hold⟩
        · exact hw.g5 j cj (Or.inl hold)
        · exact NTask.noConfusion hex
        · exact hw.g5 j cj (Or.inl hold)
        · exact hw.g5 j cj (Or.inr hold)
        · injection hex with hex
          subst hex
          obtain ⟨e, he, _, _⟩ := hw.g2 cj hC
          exact (List.getElem?_eq_some_iff.mp he).1
        · exact hw.g5 j cj (Or.inr hold)
      · intro j t ht
        rcases getElem?_set_cases ht with ⟨hne, hold⟩ | ⟨heq, hlt, hex⟩ | ⟨heq, hge, hold⟩
        · exact hw.g7 j t hold
        · subst hex
          simp [NTask.IsRG]
        · exact hw.g7 j t hold
  | skipG i a hT hE =>
      have hiT : i < w.tasks.length := (List.getElem?_eq_some_iff.mp hT).1
      refine ⟨hw.g1, hw.g2, ?_, ?_, ?_, hw.g6, ?_, hw.g8⟩
      · intro j cj hinit
        have hold : w.tasks[j]? = some (NTask.initR cj) ∨ w.tasks[j]? = some (NTask.initG cj) := by
          rcases hinit with h | h <;>
            rcases getElem?_set_cases h with ⟨hne, hold⟩ | ⟨heq, hlt, hex⟩ | ⟨heq, hge, hold⟩ <;>
            first
            | exact Or.inl hold
            | exact Or.inr hold
            | exact NTask.noConfusion hex
        refine ⟨(hw.g3 j cj hold).1, ?_⟩
        intro j' cj' hinit'
        have hold' : w.tasks[j']? = some (NTask.initR cj') ∨ w.tasks[j']? = some (NTask.initG cj') := by
          rcases hinit' with h | h <;>
            rcases getElem?_set_cases h with ⟨hne, hold'⟩ | ⟨heq, hlt, hex⟩ | ⟨heq, hge, hold'⟩ <;>
            first
            | exact Or.inl hold'
            | exact Or.inr hold'
            | exact NTask.noConfusion hex
        exact (hw.g3 j cj hold).2 j' cj' hold'
      · intro cid' h1 h2
        obtain ⟨i1, t1, ht1, hp1⟩ := hw.g4 cid' h1 h2
        by_cases hii : i1 = i
        · subst hii
          rw [hT] at ht1
          injection ht1 with ht1
          subst ht1
          exact absurd hp1 (by simp [NTask.Past, NTask.IsDone])
        · exact ⟨i1, t1, by
            show (w.tasks.set i _)[i1]? = some t1
            rw [List.getElem?_set_ne (fun hh => hii hh.symm)]
            exact ht1, hp1⟩
      · intro j cj hwait
        rcases hwait with h | h <;>
          rcases getElem?_set_cases h with ⟨hne, hold⟩ | ⟨heq, hlt, hex⟩ | ⟨heq, hge, hold⟩ <;>
          first
          | exact hw.g5 j cj (Or.inl hold)
          | exact hw.g5 j cj (Or.inr hold)
          | exact NTask.noConfusion hex
      · intro j t ht
        rcases getElem?_set_cases ht with ⟨hne, hold⟩ | ⟨heq, hlt, hex⟩ | ⟨heq, hge, hold⟩
        · exact hw.g7 j t hold
        · subst hex
          simp [NTask.IsRG]
        · exact hw.g7 j t hold
  | settleR i cid e hT hS hU =>
      have hiT : i < w.tasks.length := (List.getElem?_eq_some_iff.mp hT).1
      have hcidlt : cid < w.comps.length := (List.getElem?_eq_some_iff.mp hS).1
      have hcb : w.cell.refreshCb = some cid := (hw.g3 i cid (Or.inl hT)).1
      refine ⟨?_, ?_, ?_, ?_, ?_, ?_, ?_, ?_⟩
      · intro cid' e' he' hs' hv'
        exfalso
        rcases getElem?_set_cases he' with ⟨hne, hold⟩ | ⟨heq, hlt, hex⟩ | ⟨heq, hge, hold⟩
        · have hthis := hw.g1 cid' e' hold hs' hv'
          rw [hcb] at hthis
          injection hthis with hthis
          exact hne hthis
        · rw [hex] at hs'
          simp at hs'
        · omega
      · intro cid' hcb'
        exact Option.noConfusion
          ((settleCell_refreshCb e.outcome now w.cell).symm.trans hcb')
      · intro j cj hinit
        exfalso
        rcases hinit with h | h <;>
          rcases getElem?_set_cases h with ⟨hne, hold⟩ | ⟨heq, hlt, hex⟩ | ⟨heq, hge, hold⟩ <;>
          first
          | exact hne ((hw.g3 i cid (Or.inl hT)).2 j cj (Or.inl hold)).symm
          | exact hne ((hw.g3 i cid (Or.inl hT)).2 j cj (Or.inr hold)).symm
          | exact NTask.noConfusion hex
          | omega
      · intro cid' h1 h2
        have h2' : cid' < w.comps.length := by
          simpa [NWorld.settleRW] using h2
        obtain ⟨i1, t1, ht1, hp1⟩ := hw.g4 cid' h1 h2'
        by_cases hii : i1 = i
        · subst hii
          exact ⟨i1, NTask.doneR e.outcome.toUnit, by
            show (w.tasks.set i1 _)[i1]? = some _
            rw [List.getElem?_set_self hiT], by simp [NTask.Past, NTask.IsDone]⟩
        · exact ⟨i1, t1, by
            show (w.tasks.set i _)[i1]? = some t1
            rw [List.getElem?_set_ne (fun hh => hii hh.symm)]
            exact ht1, hp1⟩
      · intro j cj hwait
        have hlen : (w.settleRW i cid e now).comps.length = w.comps.length := by
          simp [NWorld.settleRW]
        rw [hlen]
        rcases hwait with h | h <;>
          rcases getElem?_set_cases h with ⟨hne, hold⟩ | ⟨heq, hlt, hex⟩ | ⟨heq, hge, hold⟩ <;>
          first
          | exact hw.g5 j cj (Or.inl hold)
          | exact hw.g5 j cj (Or.inr hold)
          | exact NTask.noConfusion hex
      · intro cid' e' he'
        rcases getElem?_set_cases he' with ⟨hne, hold⟩ | ⟨heq, hlt, hex⟩ | ⟨heq, hge, hold⟩
        · exact hw.g6 cid' e' hold
        · subst heq
          subst hex
          simpa using hw.g6 cid e hS
        · exact hw.g6 cid' e' hold
      · intro j t ht
        rcases getElem?_set_cases ht with ⟨hne, hold⟩ | ⟨heq, hlt, hex⟩ | ⟨heq, hge, hold⟩
        · exact hw.g7 j t hold
        · subst hex
          simp [NTask.IsRG]
        · exact hw.g7 j t hold
      · intro cid' e' he'
        rcases getElem?_set_cases he' with ⟨hne, hold⟩ | ⟨heq, hlt, hex⟩ | ⟨heq, hge, hold⟩
        · exact hw.g8 cid' e' hold
        · subst heq
          subst hex
          simpa using hw.g8 cid e hS
        · exact hw.g8 cid' e' hold
  | settleG i cid e hT hS hU =>
      have hiT : i < w.tasks.length := (List.getElem?_eq_some_iff.mp hT).1
      have hcidlt : cid < w.comps.length := (List.getElem?_eq_some_iff.mp hS).1
      have hcb : w.cell.refreshCb = some cid := (hw.g3 i cid (Or.inr hT)).1
      refine ⟨?_, ?_, ?_, ?_, ?_, ?_, ?_, ?_⟩
      · intro cid' e' he' hs' hv'
        exfalso
        rcases getElem?_set_cases he' with ⟨hne, hold⟩ | ⟨heq, hlt, hex⟩ | ⟨heq, hge, hold⟩
        · have hthis := hw.g1 cid' e' hold hs' hv'
          rw [hcb] at hthis
          injection hthis with hthis
          exact hne hthis
        · rw [hex] at hs'
          simp at hs'
        · omega
      · intro cid' hcb'
        exact Option.noConfusion
          ((settleCell_refreshCb e.outcome now w.cell).symm.trans hcb')
      · intro j cj hinit
        exfalso
        rcases hinit with h | h <;>
          rcases getElem?_set_cases h with ⟨hne, hold⟩ | ⟨heq, hlt, hex⟩ | ⟨heq, hge, hold⟩ <;>
          first
          | exact hne ((hw.g3 i cid (Or.inr hT)).2 j cj (Or.inl hold)).symm
          | exact hne ((hw.g3 i cid (Or.inr hT)).2 j cj (Or.inr hold)).symm
          | (cases ho : e.outcome <;> rw [ho] at hex <;> simp [gReaction] at hex)
          | omega
      · intro cid' h1 h2
        have h2' : cid' < w.comps.length := by
          simpa [NWorld.settleGW] using h2
        obtain ⟨i1, t1, ht1, hp1⟩ := hw.g4 cid' h1 h2'
        by_cases hii : i1 = i
        · subst hii
          exact ⟨i1, gReaction e.outcome, by
            show (w.tasks.set i1 _)[i1]? = some _
            rw [List.getElem?_set_self hiT], past_gReaction _ _⟩
        · exact ⟨i1, t1, by
            show (w.tasks.set i _)[i1]? = some t1
            rw [List.getElem?_set_ne (fun hh => hii hh.symm)]
            exact ht1, hp1⟩
      · intro j cj hwait
        have hlen : (w.settleGW i cid e now).comps.length = w.comps.length := by
          simp [NWorld.settleGW]
        rw [hlen]
        rcases hwait with h | h <;>
          rcases getElem?_set_cases h with ⟨hne, hold⟩ | ⟨heq, hlt, hex⟩ | ⟨heq, hge, hold⟩ <;>
          first
          | exact hw.g5 j cj (Or.inl hold)
          | exact hw.g5 j cj (Or.inr hold)
          | (cases ho : e.outcome <;> rw [ho] at hex <;> simp [gReaction] at hex)
      · intro cid' e' he'
        rcases getElem?_set_cases he' with ⟨hne, hold⟩ | ⟨heq, hlt, hex⟩ | ⟨heq, hge, hold⟩
        · exact hw.g6 cid' e' hold
        · subst heq
          subst hex
          simpa using hw.g6 cid e hS
        · exact hw.g6 cid' e' hold
      · intro j t ht
        rcases getElem?_set_cases ht with ⟨hne, hold⟩ | ⟨heq, hlt, hex⟩ | ⟨heq, hge, hold⟩
        · exact hw.g7 j t hold
        · subst hex
          exact isRG_gReaction _
        · exact hw.g7 j t hold
      · intro cid' e' he'
        rcases getElem?_set_cases he' with ⟨hne, hold⟩ | ⟨heq, hlt, hex⟩ | ⟨heq, hge, hold⟩
        · exact hw.g8 cid' e' hold
        · subst heq
          subst hex
          simpa using hw.g8 cid e hS
        · exact hw.g8 cid' e' hold
  | wakeR i cid e hT hS hU =>
      have hiT : i < w.tasks.length := (List.getElem?_eq_some_iff.mp hT).1
      refine ⟨hw.g1, hw.g2, ?_, ?_, ?_, hw.g6, ?_, hw.g8⟩
      · intro j cj hinit
        have hold : w.tasks[j]? = some (NTask.initR cj) ∨ w.tasks[j]? = some (NTask.initG cj) := by
          rcases hinit with h | h <;>
            rcases getElem?_set_cases h with ⟨hne, hold⟩ | ⟨heq, hlt, hex⟩ | ⟨heq, hge, hold⟩ <;>
            first
            | exact Or.inl hold
            | exact Or.inr hold
            | exact NTask.noConfusion hex
        refine ⟨(hw.g3 j cj hold).1, ?_⟩
        intro j' cj' hinit'
        have hold' : w.tasks[j']? = some (NTask.initR cj') ∨ w.tasks[j']? = some (NTask.initG cj') := by
          rcases hinit' with h | h <;>
            rcases getElem?_set_cases h with ⟨hne, hold'⟩ | ⟨heq, hlt, hex⟩ | ⟨heq, hge, hold'⟩ <;>
            first
            | exact Or.inl hold'
            | exact Or.inr hold'
            | exact NTask.noConfusion hex
        exact (hw.g3 j cj hold).2 j' cj' hold'
      · intro cid' h1 h2
        obtain ⟨i1, t1, ht1, hp1⟩ := hw.g4 cid' h1 h2
        by_cases hii : i1 = i
        · subst hii
          exact ⟨i1, NTask.doneR e.outcome.toUnit, by
            show (w.tasks.set i1 _)[i1]? = some _
            rw [List.getElem?_set_self hiT], by simp [NTask.Past, NTask.IsDone]⟩
        · exact ⟨i1, t1, by
            show (w.tasks.set i _)[i1]? = some t1
            rw [List.getElem?_set_ne (fun hh => hii hh.symm)]
            exact ht1, hp1⟩
      · intro j cj hwait
        rcases hwait with h | h <;>
          rcases getElem?_set_cases h with ⟨hne, hold⟩ | ⟨heq, hlt, hex⟩ | ⟨heq, hge, hold⟩ <;>
          first
          | exact hw.g5 j cj (Or.inl hold)
          | exact hw.g5 j cj (Or.inr hold)
          | exact NTask.noConfusion hex
      · intro j t ht
        rcases getElem?_set_cases ht with ⟨hne, hold⟩ | ⟨heq, hlt, hex⟩ | ⟨heq, hge, hold⟩
        · exact hw.g7 j t hold
        · subst hex
          simp [NTask.IsRG]
        · exact hw.g7 j t hold
  | wakeG i cid e hT hS hU =>
      have hiT : i < w.tasks.length := (List.getElem?_eq_some_iff.mp hT).1
      refine ⟨hw.g1, hw.g2, ?_, ?_, ?_, hw.g6, ?_, hw.g8⟩
      · intro j cj hinit
        have hold : w.tasks[j]? = some (NTask.initR cj) ∨ w.tasks[j]? = some (NTask.initG cj) := by
          rcases hinit with h | h <;>
            rcases getElem?_set_cases h with ⟨hne, hold⟩ | ⟨heq, hlt, hex⟩ | ⟨heq, hge, hold⟩ <;>
            first
            | exact Or.inl hold
            | exact Or.inr hold
            | (cases ho : e.outcome <;> rw [ho] at hex <;> simp [gReaction] at hex)
        refine ⟨(hw.g3 j cj hold).1, ?_⟩
        intro j' cj' hinit'
        have hold' : w.tasks[j']? = some (NTask.initR cj') ∨ w.tasks[j']? = some (NTask.initG cj') := by
          rcases hinit' with h | h <;>
            rcases getElem?_set_cases h with ⟨hne, hold'⟩ | ⟨heq, hlt, hex⟩ | ⟨heq, hge, hold'⟩ <;>
            first
            | exact Or.inl hold'
            | exact Or.inr hold'
            | (cases ho : e.outcome <;> rw [ho] at hex <;> simp [gReaction] at hex)
        exact (hw.g3 j cj hold).2 j' cj' hold'
      · intro cid' h1 h2
        obtain ⟨i1, t1, ht1, hp1⟩ := hw.g4 cid' h1 h2
        by_cases hii : i1 = i
        · subst hii
          exact ⟨i1, gReaction e.outcome, by
            show (w.tasks.set i1 _)[i1]? = some _
            rw [List.getElem?_set_self hiT], past_gReaction _ _⟩
        · exact ⟨i1, t1, by
            show (w.tasks.set i _)[i1]? = some t1
            rw [List.getElem?_set_ne (fun hh => hii hh.symm)]
            exact ht1, hp1⟩
      · intro j cj hwait
        rcases hwait with h | h <;>
          rcases getElem?_set_cases h with ⟨hne, hold⟩ | ⟨heq, hlt, hex⟩ | ⟨heq, hge, hold⟩ <;>
          first
          | exact hw.g5 j cj (Or.inl hold)
          | exact hw.g5 j cj (Or.inr hold)
          | (cases ho : e.outcome <;> rw [ho] at hex <;> simp [gReaction] at hex)
      · intro j t ht
        rcases getElem?_set_cases ht with ⟨hne, hold⟩ | ⟨heq, hlt, hex⟩ | ⟨heq, hge, hold⟩
        · exact hw.g7 j t hold
        · subst hex
          exact isRG_gReaction _
        · exact hw.g7 j t hold
  | readG i hT =>
      have hiT : i < w.tasks.length := (List.getElem?_eq_some_iff.mp hT).1
      refine ⟨hw.g1, hw.g2, ?_, ?_, ?_, hw.g6, ?_, hw.g8⟩
      · intro j cj hinit
        have hold : w.tasks[j]? = some (NTask.initR cj) ∨ w.tasks[j]? = some (NTask.initG cj) := by
          rcases hinit with h | h <;>
            rcases getElem?_set_cases h with ⟨hne, hold⟩ | ⟨heq, hlt, hex⟩ | ⟨heq, hge, hold⟩ <;>
            first
            | exact Or.inl hold
            | exact Or.inr hold
            | exact NTask.noConfusion hex
        refine ⟨(hw.g3 j cj hold).1, ?_⟩
        intro j' cj' hinit'
        have hold' : w.tasks[j']? = some (NTask.initR cj') ∨ w.tasks[j']? = some (NTask.initG cj') := by
          rcases hinit' with h | h <;>
            rcases getElem?_set_cases h with ⟨hne, hold'⟩ | ⟨heq, hlt, hex⟩ | ⟨heq, hge, hold'⟩ <;>
            first
            | exact Or.inl hold'
            | exact Or.inr hold'
            | exact NTask.noConfusion hex
        exact (hw.g3 j cj hold).2 j' cj' hold'
      · intro cid' h1 h2
        obtain ⟨i1, t1, ht1, hp1⟩ := hw.g4 cid' h1 h2
        by_cases hii : i1 = i
        · subst hii
          exact ⟨i1, NTask.doneG (Outcome.ok w.cell.data), by
            show (w.tasks.set i1 _)[i1]? = some _
            rw [List.getElem?_set_self hiT], by simp [NTask.Past, NTask.IsDone]⟩
        · exact ⟨i1, t1, by
            show (w.tasks.set i _)[i1]? = some t1
            rw [List.getElem?_set_ne (fun hh => hii hh.symm)]
            exact ht1, hp1⟩
      · intro j cj hwait
        rcases hwait with h | h <;>
          rcases getElem?_set_cases h with ⟨hne, hold⟩ | ⟨heq, hlt, hex⟩ | ⟨heq, hge, hold⟩ <;>
          first
          | exact hw.g5 j cj (Or.inl hold)
          | exact hw.g5 j cj (Or.inr hold)
          | exact NTask.noConfusion hex
      · intro j t ht
        rcases getElem?_set_cases ht with ⟨hne, hold⟩ | ⟨heq, hlt, hex⟩ | ⟨heq, hge, hold⟩
        · exact hw.g7 j t hold
        · subst hex
          simp [NTask.IsRG]
        · exact hw.g7 j t hold
  | startX i tgt a hT =>
      exact absurd (hw.g7 i _ hT) (by simp [NTask.IsRG])
  | settleX i cid tgt e hT hS hU =>
      exact absurd (hw.g7 i _ hT) (by simp [NTask.IsRG])

/-- The global invariant holds in every world reachable from a fresh one. -/
theorem ginv_steps {f : Nat → A → Outcome ε T} {w w' : NWorld T A ε}
    (hw : w.Fresh) (h : NSteps f w w') : GInv f w' := by
  induction h with
  | refl => exact ginv_fresh hw
  | tail hs hstep ih =>
      obtain ⟨now, hstep⟩ := hstep
      exact ginv_step ih hstep

/-- C3: after any refresh settles — success or failure — the in-flight
handle is cleared before the outcome is delivered: the initiator's
completion step itself leaves `_refreshCb = null` (the `finally` body), and
when a waiter's delivery step runs, the handle no longer references the
invocation it awaited; consequently a `refresh` call entered after a failed
refresh has settled (handle `null`) starts a fresh invocation of the
callback with its own arguments rather than reusing the failed one. -/
theorem c3_clear_before_delivery (f : Nat → A → Outcome ε T) :
    (∀ (w0 w w' : NWorld T A ε) (now : Int) (i cid : Nat),
      w0.Fresh → NSteps f w0 w → NStep f now w w' →
      (w.tasks[i]? = some (NTask.waitR cid) ∨ w.tasks[i]? = some (NTask.waitG cid)) →
      w'.tasks[i]? ≠ w.tasks[i]? →
      w.cell.refreshCb ≠ some cid) ∧
    (∀ (w w' : NWorld T A ε) (now : Int) (i cid : Nat),
      NStep f now w w' →
      (w.tasks[i]? = some (NTask.initR cid) ∨ w.tasks[i]? = some (NTask.initG cid)) →
      w'.tasks[i]? ≠ w.tasks[i]? →
      w'.cell.refreshCb = none) ∧
    (∀ (w w' : NWorld T A ε) (now : Int) (i : Nat) (a : A),
      NStep f now w w' →
      w.cell.refreshCb = none →
      w.tasks[i]? = some (NTask.callR a) →
      w'.tasks[i]? ≠ some (NTask.callR a) →
      w'.comps.length = w.comps.length + 1 ∧
        w'.comps[w.comps.length]? = some ⟨a, f w.comps.length a, true, false⟩) := by
  refine ⟨?_, ?_, ?_⟩
  · intro w0 w w' now i cid hfresh hsteps hstep hwait hchange hcb
    obtain ⟨e2, he2, hs2, hv2⟩ := (ginv_steps hfresh hsteps).g2 cid hcb
    obtain ⟨i0, hc, hfr⟩ := nstep_cases hstep
    by_cases hi0 : i0 = i
    · subst hi0
      rcases hwait with hw1 | hw1 <;>
        rcases hc with ⟨a',hT,hC,rfl⟩|⟨a',cid',hT,hC,rfl⟩|⟨a',hT,hE,hC,rfl⟩|
          ⟨a',cid',hT,hE,hC,rfl⟩|⟨a',hT,hE,rfl⟩|⟨cid',e',hT,hS,hU,rfl⟩|
          ⟨cid',e',hT,hS,hU,rfl⟩|⟨cid',e',hT,hS,hU,rfl⟩|⟨cid',e',hT,hS,hU,rfl⟩|
          ⟨hT,rfl⟩|⟨tgt',a',hT,rfl⟩|⟨tgt',cid',e',hT,hS,hU,rfl⟩ <;>
        rw [hw1] at hT <;> simp at hT
      · subst hT
        have he : e2 = e' := by
          rw [he2] at hS
          injection hS
        subst he
        rw [hs2] at hU
        exact Bool.noConfusion hU
      · subst hT
        have he : e2 = e' := by
          rw [he2] at hS
          injection hS
        subst he
        rw [hs2] at hU
        exact Bool.noConfusion hU
    · exact hchange (hfr i (fun h => hi0 h.symm))
  · intro w w' now i cid hstep hinit hchange
    obtain ⟨i0, hc, hfr⟩ := nstep_cases hstep
    by_cases hi0 : i0 = i
    · subst hi0
      rcases hinit with h1 | h1 <;>
        rcases hc with ⟨a',hT,hC,rfl⟩|⟨a',cid',hT,hC,rfl⟩|⟨a',hT,hE,hC,rfl⟩|
          ⟨a',cid',hT,hE,hC,rfl⟩|⟨a',hT,hE,rfl⟩|⟨cid',e',hT,hS,hU,rfl⟩|
          ⟨cid',e',hT,hS,hU,rfl⟩|⟨cid',e',hT,hS,hU,rfl⟩|⟨cid',e',hT,hS,hU,rfl⟩|
          ⟨hT,rfl⟩|⟨tgt',a',hT,rfl⟩|⟨tgt',cid',e',hT,hS,hU,rfl⟩ <;>
        rw [h1] at hT <;> simp at hT
      · exact settleCell_refreshCb e'.outcome now w.cell
      · exact settleCell_refreshCb e'.outcome now w.cell
    · exact absurd (hfr i (fun h => hi0 h.symm)) hchange
  · intro w w' now i a hstep hcb hi hne
    obtain ⟨i0, hc, hfr⟩ := nstep_cases hstep
    by_cases hi0 : i0 = i
    · subst hi0
      rcases hc with ⟨a',hT,hC,rfl⟩|⟨a',cid',hT,hC,rfl⟩|⟨a',hT,hE,hC,rfl⟩|
        ⟨a',cid',hT,hE,hC,rfl⟩|⟨a',hT,hE,rfl⟩|⟨cid',e',hT,hS,hU,rfl⟩|
        ⟨cid',e',hT,hS,hU,rfl⟩|⟨cid',e',hT,hS,hU,rfl⟩|⟨cid',e',hT,hS,hU,rfl⟩|
        ⟨hT,rfl⟩|⟨tgt',a',hT,rfl⟩|⟨tgt',cid',e',hT,hS,hU,rfl⟩ <;>
        rw [hi] at hT <;> simp at hT
      · subst hT
        refine ⟨by simp [NWorld.startRW], ?_⟩
        show (w.comps ++ [⟨a, f w.comps.length a, true, false⟩])[w.comps.length]? = _
        exact List.getElem?_concat_length _ _
      · rw [hC] at hcb
        exact Option.noConfusion hcb
    · exact absurd ((hfr i (fun h => hi0 h.symm)).trans hi) hne

/-- Freshness of the C3 initial world. -/
theorem c3w0_fresh : (c3w0 : NWorld Nat Nat Nat).Fresh := by
  refine ⟨rfl, rfl, ?_⟩
  intro t ht
  simp [c3w0] at ht
  rcases ht with rfl | rfl | rfl
  · exact Or.inl ⟨1, rfl⟩
  · exact Or.inl ⟨2, rfl⟩
  · exact Or.inl ⟨3, rfl⟩

/-- Witness for C3: a failed single-flight refresh (three `refresh` callers,
callback always failing with `7`).  At the waiter's delivery the handle no
longer holds invocation `0`; the initiator's completion left the handle
`null`; and the third caller, entering after the failure settled, starts
invocation `1` afresh with its own arguments `3`. -/
theorem c3_clear_before_delivery_witness :
    c3w3.cell.refreshCb ≠ some 0 ∧
    c3w3.cell.refreshCb = none ∧
    c3w5.comps.length = c3w4.comps.length + 1 ∧
    c3w5.comps[1]? = some ⟨3, Outcome.fail 7, true, false⟩ := by
  have hs1 : NStep c3f 4 c3w0 c3w1 :=
    NStep.startR c3w0 0 1 (by decide) (by decide)
  have hs2 : NStep c3f 5 c3w1 c3w2 :=
    NStep.joinR c3w1 1 2 0 (by decide) (by decide)
  have hs3 : NStep c3f 6 c3w2 c3w3 :=
    NStep.settleR c3w2 0 0 ⟨1, Outcome.fail 7, true, false⟩
      (by decide) (by decide) (by decide)
  have hs4 : NStep c3f 8 c3w3 c3w4 :=
    NStep.wakeR c3w3 1 0 ⟨1, Outcome.fail 7, true, true⟩
      (by decide) (by decide) (by decide)
  have hs5 : NStep c3f 9 c3w4 c3w5 :=
    NStep.startR c3w4 2 3 (by decide) (by decide)
  have hchain : NSteps c3f c3w0 c3w3 :=
    Relation.ReflTransGen.tail
      (Relation.ReflTransGen.tail
        (Relation.ReflTransGen.tail Relation.ReflTransGen.refl ⟨4, hs1⟩)
        ⟨5, hs2⟩)
      ⟨6, hs3⟩
  have hp3 := (c3_clear_before_delivery c3f).2.2 c3w4 c3w5 9 2 3 hs5
    (by decide) (by decide) (by decide)
  refine ⟨(c3_clear_before_delivery c3f).1 c3w0 c3w3 c3w4 8 1 0 c3w0_fresh hchain hs4
      (Or.inl (by decide)) (by decide),
    (c3_clear_before_delivery c3f).2.1 c3w2 c3w3 6 0 0 hs3
      (Or.inl (by decide)) (by decide),
    hp3.1, ?_⟩
  exact hp3.2

/-! ## Single-flight resolution phase -/

/-- Setting one task preserves a per-task property that the new task enjoys. -/
theorem forall_mem_set {α : Type} {l : List α} {x : α} {i : Nat} {P : α → Prop}
    (hl : ∀ t ∈ l, P t) (hx : P x) : ∀ t ∈ l.set i x, P t := by
  intro t ht
  rcases List.mem_or_eq_of_mem_set ht with h | rfl
  · exact hl t h
  · exact hx

/-- A step never changes the number of tasks. -/
theorem nstep_tasks_length {f : Nat → A → Outcome ε T} {now : Int}
    {w w' : NWorld T A ε} (h : NStep f now w w') :
    w'.tasks.length = w.tasks.length := by
  cases h <;>
    simp [NWorld.startRW, NWorld.joinRW, NWorld.startGW, NWorld.joinGW,
      NWorld.skipGW, NWorld.settleRW, NWorld.settleGW, NWorld.wakeRW,
      NWorld.wakeGW, NWorld.readGW, NWorld.startXW, NWorld.settleXW]

/-- Any number of steps never changes the number of tasks. -/
theorem nsteps_tasks_length {f : Nat → A → Outcome ε T}
    {w w' : NWorld T A ε} (h : NSteps f w w') :
    w'.tasks.length = w.tasks.length := by
  induction h with
  | refl => rfl
  | tail hs hstep ih =>
      obtain ⟨now, hstep⟩ := hstep
      exact (nstep_tasks_length hstep).trans ih

/-- One step preserves the successful-resolution invariant. -/
theorem rok_step {f : Nat → A → Outcome ε T} {now : Int} {w w' : NWorld T A ε}
    {a0 : A} {v : T} (hr : ROk a0 v w) (h : NStep f now w w') : ROk a0 v w' := by
  obtain ⟨hlen, hdisj⟩ := hr
  cases h with
  | startR i a hT hC =>
      exfalso
      rcases hdisj with ⟨h0, hall⟩ | ⟨h0, hdata, hall⟩ <;>
        have := hall _ (List.getElem?_mem hT) <;>
        simp [NTask.OnZero] at this
  | joinR i a cid hT hC =>
      exfalso
      rcases hdisj with ⟨h0, hall⟩ | ⟨h0, hdata, hall⟩ <;>
        have := hall _ (List.getElem?_mem hT) <;>
        simp [NTask.OnZero] at this
  | startG i a hT hE hC =>
      exfalso
      rcases hdisj with ⟨h0, hall⟩ | ⟨h0, hdata, hall⟩ <;>
        have := hall _ (List.getElem?_mem hT) <;>
        simp [NTask.OnZero] at this
  | joinG i a cid hT hE hC =>
      exfalso
      rcases hdisj with ⟨h0, hall⟩ | ⟨h0, hdata, hall⟩ <;>
        have := hall _ (List.getElem?_mem hT) <;>
        simp [NTask.OnZero] at this
  | skipG i a hT hE =>
      exfalso
      rcases hdisj with ⟨h0, hall⟩ | ⟨h0, hdata, hall⟩ <;>
        have := hall _ (List.getElem?_mem hT) <;>
        simp [NTask.OnZero] at this
  | startX i tgt a hT =>
      exfalso
      rcases hdisj with ⟨h0, hall⟩ | ⟨h0, hdata, hall⟩ <;>
        have := hall _ (List.getElem?_mem hT) <;>
        simp [NTask.OnZero] at this
  | settleX i cid tgt e hT hS hU =>
      exfalso
      rcases hdisj with ⟨h0, hall⟩ | ⟨h0, hdata, hall⟩ <;>
        have := hall _ (List.getElem?_mem hT) <;>
        simp [NTask.OnZero] at this
  | settleR i cid e hT hS hU =>
      rcases hdisj with ⟨h0, hall⟩ | ⟨h0, hdata, hall⟩
      · have hcid : cid = 0 := by
          have := hall _ (List.getElem?_mem hT)
          simpa [NTask.OnZero] using this
        subst hcid
        rw [h0] at hS
        have he : e = ⟨a0, Outcome.ok v, true, false⟩ := by
          injection hS with hS
          exact hS.symm
        subst he
        have h0lt : 0 < w.comps.length := by omega
        refine ⟨by simpa [NWorld.settleRW] using hlen, Or.inr ⟨?_, rfl, ?_⟩⟩
        · show (w.comps.set 0 _)[0]? = _
          rw [List.getElem?_set_self h0lt]
        · exact forall_mem_set (fun t ht => Or.inl (hall t ht))
            (Or.inr (Or.inr (Or.inl rfl)))
      · exfalso
        have hcid : cid = 0 := by
          have := hall _ (List.getElem?_mem hT)
          rcases this with h | h | h | h
          · simpa [NTask.OnZero] using h
          · exact NTask.noConfusion h
          · exact NTask.noConfusion h
          · exact NTask.noConfusion h
        subst hcid
        rw [h0] at hS
        have he : e = ⟨a0, Outcome.ok v, true, true⟩ := by
          injection hS with hS
          exact hS.symm
        subst he
        exact Bool.noConfusion hU
  | settleG i cid e hT hS hU =>
      rcases hdisj with ⟨h0, hall⟩ | ⟨h0, hdata, hall⟩
      · have hcid : cid = 0 := by
          have := hall _ (List.getElem?_mem hT)
          simpa [NTask.OnZero] using this
        subst hcid
        rw [h0] at hS
        have he : e = ⟨a0, Outcome.ok v, true, false⟩ := by
          injection hS with hS
          exact hS.symm
        subst he
        have h0lt : 0 < w.comps.length := by omega
        refine ⟨by simpa [NWorld.settleGW] using hlen, Or.inr ⟨?_, rfl, ?_⟩⟩
        · show (w.comps.set 0 _)[0]? = _
          rw [List.getElem?_set_self h0lt]
        · exact forall_mem_set (fun t ht => Or.inl (hall t ht))
            (Or.inr (Or.inl rfl))
      · exfalso
        have hcid : cid = 0 := by
          have := hall _ (List.getElem?_mem hT)
          rcases this with h | h | h | h
          · simpa [NTask.OnZero] using h
          · exact NTask.noConfusion h
          · exact NTask.noConfusion h
          · exact NTask.noConfusion h
        subst hcid
        rw [h0] at hS
        have he : e = ⟨a0, Outcome.ok v, true, true⟩ := by
          injection hS with hS
          exact hS.symm
        subst he
        exact Bool.noConfusion hU
  | wakeR i cid e hT hS hU =>
      rcases hdisj with ⟨h0, hall⟩ | ⟨h0, hdata, hall⟩
      · exfalso
        have hcid : cid = 0 := by
          have := hall _ (List.getElem?_mem hT)
          simpa [NTask.OnZero] using this
        subst hcid
        rw [h0] at hS
        have he : e = ⟨a0, Outcome.ok v, true, false⟩ := by
          injection hS with hS
          exact hS.symm
        subst he
        exact Bool.noConfusion hU
      · have hcid : cid = 0 := by
          have := hall _ (List.getElem?_mem hT)
          rcases this with h | h | h | h
          · simpa [NTask.OnZero] using h
          · exact NTask.noConfusion h
          · exact NTask.noConfusion h
          · exact NTask.noConfusion h
        subst hcid
        rw [h0] at hS
        have he : e = ⟨a0, Outcome.ok v, true, true⟩ := by
          injection hS with hS
          exact hS.symm
        subst he
        refine ⟨hlen, Or.inr ⟨h0, hdata, ?_⟩⟩
        exact forall_mem_set hall (Or.inr (Or.inr (Or.inl rfl)))
  | wakeG i cid e hT hS hU =>
      rcases hdisj with ⟨h0, hall⟩ | ⟨h0, hdata, hall⟩
      · exfalso
        have hcid : cid = 0 := by
          have := hall _ (List.getElem?_mem hT)
          simpa [NTask.OnZero] using this
        subst hcid
        rw [h0] at hS
        have he : e = ⟨a0, Outcome.ok v, true, false⟩ := by
          injection hS with hS
          exact hS.symm
        subst he
        exact Bool.noConfusion hU
      · have hcid : cid = 0 := by
          have := hall _ (List.getElem?_mem hT)
          rcases this with h | h | h | h
          · simpa [NTask.OnZero] using h
          · exact NTask.noConfusion h
          · exact NTask.noConfusion h
          · exact NTask.noConfusion h
        subst hcid
        rw [h0] at hS
        have he : e = ⟨a0, Outcome.ok v, true, true⟩ := by
          injection hS with hS
          exact hS.symm
        subst he
        refine ⟨hlen, Or.inr ⟨h0, hdata, ?_⟩⟩
        exact forall_mem_set hall (Or.inr (Or.inl rfl))
  | readG i hT =>
      rcases hdisj with ⟨h0, hall⟩ | ⟨h0, hdata, hall⟩
      · exfalso
        have := hall _ (List.getElem?_mem hT)
        simp [NTask.OnZero] at this
      · refine ⟨hlen, Or.inr ⟨h0, hdata, ?_⟩⟩
        refine forall_mem_set hall ?_
        rw [hdata]
        exact Or.inr (Or.inr (Or.inr rfl))

/-- One step preserves the failed-resolution invariant. -/
theorem rfail_step {f : Nat → A → Outcome ε T} {now : Int} {w w' : NWorld T A ε}
    {a0 : A} {er : ε} (hr : RFail a0 er w) (h : NStep f now w w') :
    RFail a0 er w' := by
  obtain ⟨hlen, hdisj⟩ := hr
  cases h with
  | startR i a hT hC =>
      exfalso
      rcases hdisj with ⟨h0, hall⟩ | ⟨h0, hall⟩ <;>
        have := hall _ (List.getElem?_mem hT) <;>
        simp [NTask.OnZero] at this
  | joinR i a cid hT hC =>
      exfalso
      rcases hdisj with ⟨h0, hall⟩ | ⟨h0, hall⟩ <;>
        have := hall _ (List.getElem?_mem hT) <;>
        simp [NTask.OnZero] at this
  | startG i a hT hE hC =>
      exfalso
      rcases hdisj with ⟨h0, hall⟩ | ⟨h0, hall⟩ <;>
        have := hall _ (List.getElem?_mem hT) <;>
        simp [NTask.OnZero] at this
  | joinG i a cid hT hE hC =>
      exfalso
      rcases hdisj with ⟨h0, hall⟩ | ⟨h0, hall⟩ <;>
        have := hall _ (List.getElem?_mem hT) <;>
        simp [NTask.OnZero] at this
  | skipG i a hT hE =>
      exfalso
      rcases hdisj with ⟨h0, hall⟩ | ⟨h0, hall⟩ <;>
        have := hall _ (List.getElem?_mem hT) <;>
        simp [NTask.OnZero] at this
  | startX i tgt a hT =>
      exfalso
      rcases hdisj with ⟨h0, hall⟩ | ⟨h0, hall⟩ <;>
        have := hall _ (List.getElem?_mem hT) <;>
        simp [NTask.OnZero] at this
  | settleX i cid tgt e hT hS hU =>
      exfalso
      rcases hdisj with ⟨h0, hall⟩ | ⟨h0, hall⟩ <;>
        have := hall _ (List.getElem?_mem hT) <;>
        simp [NTask.OnZero] at this
  | settleR i cid e hT hS hU =>
      rcases hdisj with ⟨h0, hall⟩ | ⟨h0, hall⟩
      · have hcid : cid = 0 := by
          have := hall _ (List.getElem?_mem hT)
          simpa [NTask.OnZero] using this
        subst hcid
        rw [h0] at hS
        have he : e = ⟨a0, Outcome.fail er, true, false⟩ := by
          injection hS with hS
          exact hS.symm
        subst he
        have h0lt : 0 < w.comps.length := by omega
        refine ⟨by simpa [NWorld.settleRW] using hlen, Or.inr ⟨?_, ?_⟩⟩
        · show (w.comps.set 0 _)[0]? = _
          rw [List.getElem?_set_self h0lt]
        · exact forall_mem_set (fun t ht => Or.inl (hall t ht))
            (Or.inr (Or.inl rfl))
      · exfalso
        have hcid : cid = 0 := by
          have := hall _ (List.getElem?_mem hT)
          rcases this with h | h | h
          · simpa [NTask.OnZero] using h
          · exact NTask.noConfusion h
          · exact NTask.noConfusion h
        subst hcid
        rw [h0] at hS
        have he : e = ⟨a0, Outcome.fail er, true, true⟩ := by
          injection hS with hS
          exact hS.symm
        subst he
        exact Bool.noConfusion hU
  | settleG i cid e hT hS hU =>
      rcases hdisj with ⟨h0, hall⟩ | ⟨h0, hall⟩
      · have hcid : cid = 0 := by
          have := hall _ (List.getElem?_mem hT)
          simpa [NTask.OnZero] using this
        subst hcid
        rw [h0] at hS
        have he : e = ⟨a0, Outcome.fail er, true, false⟩ := by
          injection hS with hS
          exact hS.symm
        subst he
        have h0lt : 0 < w.comps.length := by omega
        refine ⟨by simpa [NWorld.settleGW] using hlen, Or.inr ⟨?_, ?_⟩⟩
        · show (w.comps.set 0 _)[0]? = _
          rw [List.getElem?_set_self h0lt]
        · exact forall_mem_set (fun t ht => Or.inl (hall t ht))
            (Or.inr (Or.inr rfl))
      · exfalso
        have hcid : cid = 0 := by
          have := hall _ (List.getElem?_mem hT)
          rcases this with h | h | h
          · simpa [NTask.OnZero] using h
          · exact NTask.noConfusion h
          · exact NTask.noConfusion h
        subst hcid
        rw [h0] at hS
        have he : e = ⟨a0, Outcome.fail er, true, true⟩ := by
          injection hS with hS
          exact hS.symm
        subst he
        exact Bool.noConfusion hU
  | wakeR i cid e hT hS hU =>
      rcases hdisj with ⟨h0, hall⟩ | ⟨h0, hall⟩
      · exfalso
        have hcid : cid = 0 := by
          have := hall _ (List.getElem?_mem hT)
          simpa [NTask.OnZero] using this
        subst hcid
        rw [h0] at hS
        have he : e = ⟨a0, Outcome.fail er, true, false⟩ := by
          injection hS with hS
          exact hS.symm
        subst he
        exact Bool.noConfusion hU
      · have hcid : cid = 0 := by
          have := hall _ (List.getElem?_mem hT)
          rcases this with h | h | h
          · simpa [NTask.OnZero] using h
          · exact NTask.noConfusion h
          · exact NTask.noConfusion h
        subst hcid
        rw [h0] at hS
        have he : e = ⟨a0, Outcome.fail er, true, true⟩ := by
          injection hS with hS
          exact hS.symm
        subst he
        refine ⟨hlen, Or.inr ⟨h0, ?_⟩⟩
        exact forall_mem_set hall (Or.inr (Or.inl rfl))
  | wakeG i cid e hT hS hU =>
      rcases hdisj with ⟨h0, hall⟩ | ⟨h0, hall⟩
      · exfalso
        have hcid : cid = 0 := by
          have := hall _ (List.getElem?_mem hT)
          simpa [NTask.OnZero] using this
        subst hcid
        rw [h0] at hS
        have he : e = ⟨a0, Outcome.fail er, true, false⟩ := by
          injection hS with hS
          exact hS.symm
        subst he
        exact Bool.noConfusion hU
      · have hcid : cid = 0 := by
          have := hall _ (List.getElem?_mem hT)
          rcases this with h | h | h
          · simpa [NTask.OnZero] using h
          · exact NTask.noConfusion h
          · exact NTask.noConfusion h
        subst hcid
        rw [h0] at hS
        have he : e = ⟨a0, Outcome.fail er, true, true⟩ := by
          injection hS with hS
          exact hS.symm
        subst he
        refine ⟨hlen, Or.inr ⟨h0, ?_⟩⟩
        exact forall_mem_set hall (Or.inr (Or.inr rfl))
  | readG i hT =>
      exfalso
      rcases hdisj with ⟨h0, hall⟩ | ⟨h0, hall⟩ <;>
        have := hall _ (List.getElem?_mem hT) <;>
        simp [NTask.OnZero] at this

/-- Any number of steps preserves the successful-resolution invariant. -/
theorem rok_steps {f : Nat → A → Outcome ε T} {w w' : NWorld T A ε}
    {a0 : A} {v : T} (hr : ROk a0 v w) (h : NSteps f w w') : ROk a0 v w' := by
  induction h with
  | refl => exact hr
  | tail hs hstep ih =>
      obtain ⟨now, hstep⟩ := hstep
      exact rok_step ih hstep

/-- Any number of steps preserves the failed-resolution invariant. -/
theorem rfail_steps {f : Nat → A → Outcome ε T} {w w' : NWorld T A ε}
    {a0 : A} {er : ε} (hr : RFail a0 er w) (h : NSteps f w w') : RFail a0 er w' := by
  induction h with
  | refl => exact hr
  | tail hs hstep ih =>
      obtain ⟨now, hstep⟩ := hstep
      exact rfail_step ih hstep

/-- Counterexample to C1 as stated ("for every cell, either variant"): the
always-populated variant has no in-flight handle at all, so two concurrent
`refresh()` calls on an expired `ExpiryCache` cell each invoke the refresh
callback — after both prologues two refresh computations are executing at
once and the log holds two invocations, and both callers complete with the
callback invoked twice, not once. -/
theorem c1_counterexample :
    ASteps c1af c1aw0 c1aw2 ∧
    c1aw2.comps.length = 2 ∧
    c1aw2.comps[0]? = some ⟨(), Outcome.ok 0, false, false⟩ ∧
    c1aw2.comps[1]? = some ⟨(), Outcome.ok 1, false, false⟩ ∧
    c1aw2.tasks = [ATask.awaitCb 0, ATask.awaitCb 1] ∧
    CellA.isExpired 5 c1aw0.cell = true ∧
    ASteps c1af c1aw2 c1aw4 ∧
    c1aw4.tasks = [ATask.doneR (Outcome.ok ()), ATask.doneR (Outcome.ok ())] ∧
    c1aw4.comps.length = 2 := by
  refine ⟨?_, by decide, by decide, by decide, by decide, by decide, ?_, by decide,
    by decide⟩
  · exact Relation.ReflTransGen.tail
      (Relation.ReflTransGen.tail Relation.ReflTransGen.refl
        ⟨5, AStep.start c1aw0 0 () (by decide)⟩)
      ⟨6, AStep.start c1aw1 1 () (by decide)⟩
  · exact Relation.ReflTransGen.tail
      (Relation.ReflTransGen.tail Relation.ReflTransGen.refl
        ⟨9, AStep.settle c1aw2 0 0 ⟨(), Outcome.ok 0, false, false⟩
          (by decide) (by decide) (by decide)⟩)
      ⟨11, AStep.settle c1aw3 1 1 ⟨(), Outcome.ok 1, false, false⟩
        (by decide) (by decide) (by decide)⟩

/-- C1 (amended: the single-flight guarantee holds on the *nullable* variant;
the always-populated variant deduplicates nothing — see the counterexample):
on a nullable cell, in every world reachable from a cell at rest with only
`refresh` / `getDataOrRefresh` callers, at most one handle-stored refresh
invocation is unsettled at a time; and when all N concurrent callers have
entered the protocol on the first invocation while it is in flight, the
whole run makes exactly one callback invocation and every caller receives
the identical outcome derived from it — `refresh` callers all resolve (or
all reject with the one error), `getDataOrRefresh` callers all return the
one stored value (or all reject with the same error). -/
theorem c1_single_flight (f : Nat → A → Outcome ε T) :
    (∀ (w0 w : NWorld T A ε), w0.Fresh → NSteps f w0 w →
      ∀ (cid cid' : Nat) (e e' : Comp A ε T),
        w.comps[cid]? = some e → w.comps[cid']? = some e' →
        e.settled = false → e'.settled = false → cid = cid') ∧
    (∀ (w0 w1 w2 : NWorld T A ε),
      w0.Fresh → NSteps f w0 w1 →
      (∀ t ∈ w1.tasks, NTask.OnZero t) →
      (∃ (i : Nat), w1.tasks[i]? = some (NTask.initR 0) ∨
        w1.tasks[i]? = some (NTask.initG 0)) →
      NSteps f w1 w2 →
      (∀ t ∈ w2.tasks, NTask.IsDone t) →
      w2.comps.length = 1 ∧
      ∃ e : Comp A ε T, w2.comps[0]? = some e ∧ e.outcome = f 0 e.args ∧
        (∀ v, e.outcome = Outcome.ok v →
          ∀ t ∈ w2.tasks, t = NTask.doneR (Outcome.ok ()) ∨
            t = NTask.doneG (Outcome.ok (some v))) ∧
        (∀ er, e.outcome = Outcome.fail er →
          ∀ t ∈ w2.tasks, t = NTask.doneR (Outcome.fail er) ∨
            t = NTask.doneG (Outcome.fail er))) := by
  constructor
  · intro w0 w hfresh hsteps cid cid' e e' he he' hs hs'
    have hg := ginv_steps hfresh hsteps
    have h1 := hg.g1 cid e he hs (hg.g8 cid e he)
    have h2 := hg.g1 cid' e' he' hs' (hg.g8 cid' e' he')
    rw [h1] at h2
    injection h2
  · intro w0 w1 w2 hfresh h01 hmid hex h12 hdone
    have hg := ginv_steps hfresh h01
    obtain ⟨i, hinit⟩ := hex
    have hiT : i < w1.tasks.length := by
      rcases hinit with h | h <;> exact (List.getElem?_eq_some_iff.mp h).1
    have hcb : w1.cell.refreshCb = some 0 := (hg.g3 i 0 hinit).1
    obtain ⟨e0, he0, hs0, hv0⟩ := hg.g2 0 hcb
    have hge1 : 1 ≤ w1.comps.length := by
      have := (List.getElem?_eq_some_iff.mp he0).1
      omega
    have hlen1 : w1.comps.length = 1 := by
      by_contra hne
      obtain ⟨i1, t1, ht1, hp1⟩ := hg.g4 1 (by omega) (by omega)
      have hz := hmid _ (List.getElem?_mem ht1)
      rcases hz with h | h | h | h <;> subst h <;>
        simp [NTask.Past, NTask.IsDone] at hp1
    have hout : e0.outcome = f 0 e0.args := hg.g6 0 e0 he0
    obtain ⟨ea, eo, evh, es⟩ := e0
    simp only at hs0 hv0 hout he0
    subst hs0
    subst hv0
    have hlen12 : w2.tasks.length = w1.tasks.length := nsteps_tasks_length h12
    have h0lt : 0 < w2.tasks.length := by omega
    cases hoeo : eo with
    | ok v =>
        rw [hoeo] at he0
        have hR2 : ROk ea v w2 := rok_steps ⟨hlen1, Or.inl ⟨he0, hmid⟩⟩ h12
        obtain ⟨hlen2, hd⟩ := hR2
        rcases hd with ⟨hc2, hall2⟩ | ⟨hc2, hdata2, hall2⟩
        · exfalso
          have hmem : w2.tasks[0] ∈ w2.tasks := List.getElem_mem h0lt
          have hd1 := hdone _ hmem
          have hz1 := hall2 _ hmem
          rcases hz1 with h | h | h | h <;> rw [h] at hd1 <;>
            simp [NTask.IsDone] at hd1
        · refine ⟨hlen2, ⟨ea, Outcome.ok v, true, true⟩, hc2, ?_, ?_, ?_⟩
          · show Outcome.ok v = f 0 ea
            rw [← hoeo]
            exact hout
          · intro v' hv' t ht
            have hv2 : v = v' := by
              injection hv'
            subst hv2
            have hz := hall2 t ht
            rcases hz with h | h | h | h
            · exfalso
              have hd1 := hdone t ht
              rcases h with rfl | rfl | rfl | rfl <;> simp [NTask.IsDone] at hd1
            · exfalso
              have hd1 := hdone t ht
              rw [h] at hd1
              simp [NTask.IsDone] at hd1
            · exact Or.inl h
            · exact Or.inr h
          · intro er her
            exact Outcome.noConfusion her
    | fail er =>
        rw [hoeo] at he0
        have hR2 : RFail ea er w2 := rfail_steps ⟨hlen1, Or.inl ⟨he0, hmid⟩⟩ h12
        obtain ⟨hlen2, hd⟩ := hR2
        rcases hd with ⟨hc2, hall2⟩ | ⟨hc2, hall2⟩
        · exfalso
          have hmem : w2.tasks[0] ∈ w2.tasks := List.getElem_mem h0lt
          have hd1 := hdone _ hmem
          have hz1 := hall2 _ hmem
          rcases hz1 with h | h | h | h <;> rw [h] at hd1 <;>
            simp [NTask.IsDone] at hd1
        · refine ⟨hlen2, ⟨ea, Outcome.fail er, true, true⟩, hc2, ?_, ?_, ?_⟩
          · show Outcome.fail er = f 0 ea
            rw [← hoeo]
            exact hout
          · intro v' hv'
            exact Outcome.noConfusion hv'
          · intro er' her' t ht
            have her2 : er = er' := by
              injection her'
            subst her2
            have hz := hall2 t ht
            rcases hz with h | h | h
            · exfalso
              have hd1 := hdone t ht
              rcases h with rfl | rfl | rfl | rfl <;> simp [NTask.IsDone] at hd1
            · exact Or.inl h
            · exact Or.inr h

/-- Freshness of the C1 initial world. -/
theorem c1w0_fresh : (c1w0 : NWorld Nat Nat Nat).Fresh := by
  refine ⟨rfl, rfl, ?_⟩
  intro t ht
  simp [c1w0] at ht
  rcases ht with rfl | rfl
  · exact Or.inl ⟨5, rfl⟩
  · exact Or.inr ⟨9, rfl⟩

/-- Witness for C1 (amended): a `refresh(5)` caller and a `getDataOrRefresh(9)`
caller burst on an expired empty nullable cell; the run makes exactly one
invocation and both callers receive the outcome of invocation `0`. -/
theorem c1_single_flight_witness :
    (0 : Nat) = 0 ∧
    (c1w5.comps.length = 1 ∧
      ∃ e : Comp Nat Nat Nat, c1w5.comps[0]? = some e ∧ e.outcome = c1f 0 e.args ∧
        (∀ v, e.outcome = Outcome.ok v →
          ∀ t ∈ c1w5.tasks, t = NTask.doneR (Outcome.ok ()) ∨
            t = NTask.doneG (Outcome.ok (some v))) ∧
        (∀ er, e.outcome = Outcome.fail er →
          ∀ t ∈ c1w5.tasks, t = NTask.doneR (Outcome.fail er) ∨
            t = NTask.doneG (Outcome.fail er))) := by
  have hs1 : NStep c1f 10 c1w0 c1w1 :=
    NStep.startR c1w0 0 5 (by decide) (by decide)
  have hs2 : NStep c1f 20 c1w1 c1w2 :=
    NStep.joinG c1w1 1 9 0 (by decide) (by decide) (by decide)
  have hs3 : NStep c1f 50 c1w2 c1w3 :=
    NStep.settleR c1w2 0 0 ⟨5, Outcome.ok 5, true, false⟩
      (by decide) (by decide) (by decide)
  have hs4 : NStep c1f 60 c1w3 c1w4 :=
    NStep.wakeG c1w3 1 0 ⟨5, Outcome.ok 5, true, true⟩
      (by decide) (by decide) (by decide)
  have hs5 : NStep c1f 70 c1w4 c1w5 :=
    NStep.readG c1w4 1 (by decide)
  have h01 : NSteps c1f c1w0 c1w2 :=
    Relation.ReflTransGen.tail
      (Relation.ReflTransGen.tail Relation.ReflTransGen.refl ⟨10, hs1⟩)
      ⟨20, hs2⟩
  have h25 : NSteps c1f c1w2 c1w5 :=
    Relation.ReflTransGen.tail
      (Relation.ReflTransGen.tail
        (Relation.ReflTransGen.tail Relation.ReflTransGen.refl ⟨50, hs3⟩)
        ⟨60, hs4⟩)
      ⟨70, hs5⟩
  have hmid : ∀ t ∈ c1w2.tasks, NTask.OnZero t := by
    have htasks : c1w2.tasks = [NTask.initR 0, NTask.waitG 0] := by decide
    rw [htasks]
    intro t ht
    simp at ht
    rcases ht with rfl | rfl
    · exact Or.inl rfl
    · exact Or.inr (Or.inr (Or.inr rfl))
  have hdone : ∀ t ∈ c1w5.tasks, NTask.IsDone t := by
    have htasks : c1w5.tasks
        = [NTask.doneR (Outcome.ok ()), NTask.doneG (Outcome.ok (some 5))] := by
      decide
    rw [htasks]
    intro t ht
    simp at ht
    rcases ht with rfl | rfl
    · exact Or.inl ⟨_, rfl⟩
    · exact Or.inr (Or.inl ⟨_, rfl⟩)
  refine ⟨?_, (c1_single_flight c1f).2 c1w0 c1w2 c1w5 c1w0_fresh h01 hmid
    ⟨0, Or.inl (by decide)⟩ h25 hdone⟩
  exact (c1_single_flight c1f).1 c1w0 c1w2 c1w0_fresh h01 0 0
    ⟨5, Outcome.ok 5, true, false⟩ ⟨5, Outcome.ok 5, true, false⟩
    (by decide) (by decide) (by decide) (by decide)
